import Mathlib

/-!
Verification of the period reporting / trend-aggregation engine of the ledger
application (src/ledger/services/statistics_service.py and the storage reads in
src/ledger/db/database.py).

Conventions of the shallow embedding:

* Python `datetime.date` values are embedded as the structure `Date` below
  (year/month/day as naturals).  `toOrdinal` is `date.toordinal()` — the
  proleptic-Gregorian day number with `0001-01-01 = 1`; `daysBeforeYear` /
  `daysBeforeMonth` / `monthLength` mirror the tables and formulas used by
  CPython's `datetime` and `calendar.monthrange`.  Python restricts years to
  `1..9999`; `Date.Valid` captures exactly the dates Python can represent.
* Python date comparison is tuple comparison on `(year, month, day)`
  (`dateLE` / `dateLT`); `current += timedelta(days=1)` is `nextDay`.
* All money amounts are kept in integer minor units ("cents"), exactly as the
  SQL layer returns them.  The Python code divides by `100.0` only when
  building display values; the claims are stated at the minor-unit level
  (a display value is `cents / 100.0`, and it is `0.0` iff `cents = 0`).
* Percentages (`amount / total * 100`) are embedded in `ℚ`; the guards of the
  Python code (`if total > 0 else 0`) are carried over verbatim.
* The sqlite store is embedded as a list of transaction rows (`Txn`); each SQL
  read used by the statistics service is translated into a pure function over
  that list (grouping = fold over the distinct keys, `WHERE date >= ? AND
  date <= ?` = the closed-range filter; date strings in the store are the
  `YYYY-MM-DD` renderings of valid dates, so string comparison agrees with
  date comparison).
-/

namespace LedgerSpec

/-! ### Calendar basics (embedding of CPython `datetime.date` / `calendar`) -/

/-- Leap-year rule of `calendar.isleap` / `datetime`. -/
def isLeap (y : Nat) : Bool := (y % 4 == 0 && y % 100 != 0) || y % 400 == 0

/-- Month lengths of a non-leap year (`calendar.mdays` / `_DAYS_IN_MONTH`,
index 0 is a placeholder exactly as in those Python lists). -/
def daysInMonthTable : List Nat :=
  [0, 31, 28, 31, 30, 31, 30, 31, 31, 30, 31, 30, 31]

/-- Number of days of month `m` of year `y` (`calendar.monthrange(y, m)[1]`). -/
def monthLength (y m : Nat) : Nat :=
  if m = 2 ∧ isLeap y then 29 else daysInMonthTable.getD m 0

/-- Cumulative days before month `m` in a non-leap year (CPython
`_DAYS_BEFORE_MONTH`, placeholder at index 0), extended with the convenient
entry `13 ↦ 365`. -/
def daysBeforeMonthTable : List Nat :=
  [0, 0, 31, 59, 90, 120, 151, 181, 212, 243, 273, 304, 334, 365]

/-- Days before month `m` of year `y` (CPython `_days_before_month`). -/
def daysBeforeMonth (y m : Nat) : Nat :=
  daysBeforeMonthTable.getD m 0 + (if 2 < m ∧ isLeap y then 1 else 0)

/-- Days in all years before year `y` (CPython `_days_before_year`). -/
def daysBeforeYear (y : Nat) : Nat :=
  365 * (y - 1) + (y - 1) / 4 - (y - 1) / 100 + (y - 1) / 400

/-- Embedding of Python `datetime.date`. -/
structure Date where
  year : Nat
  month : Nat
  day : Nat
deriving DecidableEq, Repr

/-- Proleptic-Gregorian ordinal, `date.toordinal()` (CPython `_ymd2ord`). -/
def toOrdinal (d : Date) : Nat :=
  daysBeforeYear d.year + daysBeforeMonth d.year d.month + d.day

/-- The dates Python `datetime.date` can represent (`MINYEAR = 1`,
`MAXYEAR = 9999`, day within `calendar.monthrange`). -/
def Date.Valid (d : Date) : Prop :=
  1 ≤ d.year ∧ d.year ≤ 9999 ∧ 1 ≤ d.month ∧ d.month ≤ 12 ∧
    1 ≤ d.day ∧ d.day ≤ monthLength d.year d.month

instance : DecidablePred Date.Valid := fun d => by unfold Date.Valid; infer_instance

/-- Python date comparison (tuple comparison on `(year, month, day)`), `<=`. -/
def dateLE (a b : Date) : Prop :=
  a.year < b.year ∨ (a.year = b.year ∧
    (a.month < b.month ∨ (a.month = b.month ∧ a.day ≤ b.day)))

/-- Python date comparison (tuple comparison on `(year, month, day)`), `<`. -/
def dateLT (a b : Date) : Prop :=
  a.year < b.year ∨ (a.year = b.year ∧
    (a.month < b.month ∨ (a.month = b.month ∧ a.day < b.day)))

instance (a b : Date) : Decidable (dateLE a b) := by unfold dateLE; infer_instance
instance (a b : Date) : Decidable (dateLT a b) := by unfold dateLT; infer_instance

/-- Python `current + timedelta(days=1)` on valid dates. -/
def nextDay (d : Date) : Date :=
  if d.day < monthLength d.year d.month then ⟨d.year, d.month, d.day + 1⟩
  else if d.month < 12 then ⟨d.year, d.month + 1, 1⟩
  else ⟨d.year + 1, 1, 1⟩

/-! ### Iterating a date range (the `while current <= end` loop skeleton)

Python's loops `current = start; while current <= end: ...; current += one day`
advance the ordinal by exactly one per iteration, so on valid dates the body
runs exactly `toOrdinal e + 1 - toOrdinal s` times (`0` when `start > end`).
`dateListAux` is that loop skeleton with the iteration count as fuel. -/

def dateListAux : Nat → Date → List Date
  | 0, _ => []
  | fuel + 1, cur => cur :: dateListAux fuel (nextDay cur)

/-- The dates visited by the Python range loop, in visiting order. -/
def dateList (s e : Date) : List Date :=
  dateListAux (toOrdinal e + 1 - toOrdinal s) s

/-! ### ISO calendar (CPython `date.isocalendar`)

Divisions below are Euclidean (`Int.ediv` / `Int.emod`); for the positive
divisor `7` they coincide with Python's floor `divmod`. -/

/-- Ordinal of January 1st of `year` (helper, `_ymd2ord(year, 1, 1)`). -/
def jan1ord (year : Nat) : Int := (toOrdinal ⟨year, 1, 1⟩ : Int)

/-- Ordinal of the Monday starting ISO week 1 of `year`
(CPython `_isoweek1monday`; `THURSDAY = 3`, Monday-based weekday of the
ordinal `n` is `(n + 6) % 7`). -/
def isoweek1monday (year : Nat) : Int :=
  if 3 < (jan1ord year + 6) % 7 then
    jan1ord year - (jan1ord year + 6) % 7 + 7
  else
    jan1ord year - (jan1ord year + 6) % 7

/-- The `(iso_year, iso_week)` part of CPython `date.isocalendar()` (the
weekday component is not used by the statistics service). -/
def isocalendarYW (d : Date) : Nat × Int :=
  if ((toOrdinal d : Int) - isoweek1monday d.year) / 7 < 0 then
    (d.year - 1, ((toOrdinal d : Int) - isoweek1monday (d.year - 1)) / 7 + 1)
  else if 52 ≤ ((toOrdinal d : Int) - isoweek1monday d.year) / 7 ∧
      isoweek1monday (d.year + 1) ≤ (toOrdinal d : Int) then
    (d.year + 1, 1)
  else
    (d.year, ((toOrdinal d : Int) - isoweek1monday d.year) / 7 + 1)

/-- Strict lexicographic order on `(iso_year, iso_week)` pairs: chronological
order of ISO weeks. -/
def isoLT (a b : Nat × Int) : Prop := a.1 < b.1 ∨ (a.1 = b.1 ∧ a.2 < b.2)

instance (a b : Nat × Int) : Decidable (isoLT a b) := by unfold isoLT; infer_instance

/-! ### Decimal rendering (Python `str(int)` and format specifiers) -/

/-- Decimal digit characters of `n`, most significant first.  Fuel-based so
the kernel can evaluate it; any `fuel > 0` with `n ≤ fuel` suffices because
the recursion divides by 10. -/
def natStrAux : Nat → Nat → List Char
  | 0, _ => []
  | fuel + 1, n =>
    if n < 10 then [Nat.digitChar n]
    else natStrAux fuel (n / 10) ++ [Nat.digitChar (n % 10)]

/-- Python `str(n)` for a natural number. -/
def natStr (n : Nat) : String := String.mk (natStrAux (n + 1) n)

/-- Python `f"{n:02d}"`. -/
def pad2 (n : Nat) : String :=
  if n ≤ 99 then String.mk [Nat.digitChar (n / 10), Nat.digitChar (n % 10)]
  else natStr n

/-- Python `f"{n:03d}"`. -/
def pad3 (n : Nat) : String :=
  if n ≤ 999 then
    String.mk [Nat.digitChar (n / 100), Nat.digitChar (n / 10 % 10),
      Nat.digitChar (n % 10)]
  else natStr n

/-- Python `f"{n:04d}"`. -/
def pad4 (n : Nat) : String :=
  if n ≤ 9999 then
    String.mk [Nat.digitChar (n / 1000), Nat.digitChar (n / 100 % 10),
      Nat.digitChar (n / 10 % 10), Nat.digitChar (n % 10)]
  else natStr n

/-- Python `f"{y:04d}"` for an `int`: the sign counts toward the width. -/
def pad4Int (y : Int) : String :=
  if y < 0 then "-" ++ pad3 (-y).toNat else pad4 y.toNat

/-- `date.strftime("%Y-%m-%d")` — also the `label` of a day bucket and the
`date` strings stored in the transactions table. -/
def formatDate (d : Date) : String :=
  pad4 d.year ++ "-" ++ pad2 d.month ++ "-" ++ pad2 d.day

/-- The `YYYY-MM` month key, `f"{year:04d}-{month:02d}"`; on a stored date
string it is exactly `item["date"][:7]`. -/
def monthLabel (y m : Nat) : String := pad4 y ++ "-" ++ pad2 m

/-- Month key of a date (`item["date"][:7]`). -/
def monthKey (d : Date) : String := monthLabel d.year d.month

/-- The `YYYY` year key; on a stored date string it is `item["date"][:4]`. -/
def yearLabel (y : Nat) : String := pad4 y

/-- Year key of a date (`item["date"][:4]`). -/
def yearKey (d : Date) : String := yearLabel d.year

/-- ISO week bucket label `f"{iso_year}-W{iso_week:02d}"`.  For valid dates
the week number is ≥ 1, so `Int.toNat` is faithful. -/
def weekLabel (d : Date) : String :=
  natStr (isocalendarYW d).1 ++ "-W" ++ pad2 (isocalendarYW d).2.toNat

/-! ### Storage model (the transactions table and its statistics reads) -/

/-- A row of the `transactions` table, restricted to the fields the
statistics queries read.  `category` is `none` for SQL `NULL`.  The table
stores the date as its `YYYY-MM-DD` rendering; on valid dates SQL string
comparison equals date comparison, so the embedding keeps the parsed date. -/
structure Txn where
  type : String
  amount_cents : Nat
  date : Date
  category : Option String
deriving DecidableEq, Repr

/-- `WHERE date >= start AND date <= end` (closed range on both ends). -/
def txnInRange (s e : Date) (t : Txn) : Prop := dateLE s t.date ∧ dateLE t.date e

instance (s e : Date) (t : Txn) : Decidable (txnInRange s e t) := by
  unfold txnInRange; infer_instance

/-- `SUM(amount_cents)` over a list of rows. -/
def sumAmounts (ts : List Txn) : Nat := (ts.map (fun t => t.amount_cents)).sum

/-- One output row of the daily-summary reads:
`{date, income minor units, expense minor units}`. -/
structure DayRow where
  date : Date
  income : Nat
  expense : Nat
deriving DecidableEq, Repr

/-- Whether `GROUP BY date` produces a row for day `d` (the `WHERE` clause
does not mention the category, so neither does this). -/
def dayHasTxn (txns : List Txn) (s e : Date) (d : Date) : Bool :=
  decide (∃ t ∈ txns, txnInRange s e t ∧ t.date = d)

/-- `SUM(CASE WHEN type = 'income' THEN amount_cents ELSE 0 END)` of day `d`. -/
def dayIncome (txns : List Txn) (s e d : Date) : Nat :=
  sumAmounts (txns.filter (fun t =>
    decide (txnInRange s e t ∧ t.date = d ∧ t.type = "income")))

/-- The expense CASE sum of day `d`; with a category filter only
`type = 'expense' AND category = ?` rows count (`NULL` never matches). -/
def dayExpense (txns : List Txn) (s e d : Date) (category : Option String) : Nat :=
  match category with
  | none => sumAmounts (txns.filter (fun t =>
      decide (txnInRange s e t ∧ t.date = d ∧ t.type = "expense")))
  | some c => sumAmounts (txns.filter (fun t =>
      decide (txnInRange s e t ∧ t.date = d ∧ t.type = "expense" ∧
        t.category = some c)))

/-- `Database.get_daily_summary`: per-day sums of income and expense amounts
over the closed range, one row per day having at least one transaction
(`GROUP BY date`), in ascending date order (`ORDER BY date`). -/
def get_daily_summary (txns : List Txn) (s e : Date) : List DayRow :=
  ((dateList s e).filter (dayHasTxn txns s e)).map (fun d =>
    { date := d
      income := dayIncome txns s e d
      expense := dayExpense txns s e d none })

/-- `Database.get_daily_summary_by_category`: same rows and income sums as
`get_daily_summary` (the `WHERE`/`GROUP BY` do not mention the category);
only the expense sum sees the filter. -/
def get_daily_summary_by_category (txns : List Txn) (s e : Date)
    (category : Option String) : List DayRow :=
  match category with
  | none => get_daily_summary txns s e
  | some c =>
    ((dateList s e).filter (dayHasTxn txns s e)).map (fun d =>
      { date := d
        income := dayIncome txns s e d
        expense := dayExpense txns s e d (some c) })

/-- One row of `Database.get_category_summary`. -/
structure CatRow where
  category : String
  amount_cents : Nat
deriving DecidableEq, Repr

/-- Insertion into a list kept in descending `amount_cents` order (model of
sqlite `ORDER BY total DESC`; ties keep insertion order). -/
def insertByAmountDesc (x : CatRow) : List CatRow → List CatRow
  | [] => [x]
  | y :: ys =>
    if y.amount_cents < x.amount_cents then x :: y :: ys
    else y :: insertByAmountDesc x ys

/-- Sort by descending `amount_cents` (model of `ORDER BY total DESC`). -/
def sortByAmountDesc : List CatRow → List CatRow
  | [] => []
  | x :: xs => insertByAmountDesc x (sortByAmountDesc xs)

/-- `Database.get_category_summary`: `GROUP BY category` over the rows of the
requested type in the closed range, output label `COALESCE(category,
'未分类')`, sorted by `ORDER BY total DESC`. -/
def get_category_summary (txns : List Txn) (s e : Date) (tx_type : String) :
    List CatRow :=
  sortByAmountDesc
    (((txns.filter (fun t =>
        decide (txnInRange s e t ∧ t.type = tx_type))).map
          (fun t => t.category)).dedup.map (fun c =>
      { category := c.getD "未分类"
        amount_cents := sumAmounts ((txns.filter (fun t =>
          decide (txnInRange s e t ∧ t.type = tx_type))).filter (fun t =>
            t.category == c)) }))

/-- `PeriodSummary` (minor units; the Python float accessors divide by
`100.0`). -/
structure PeriodSummary where
  income_cents : Nat
  expense_cents : Nat
deriving DecidableEq, Repr

/-- `Database.get_summary_by_date_range` combined with
`StatisticsService._get_period_summary`. -/
def get_summary_by_date_range (txns : List Txn) (s e : Date) : PeriodSummary :=
  { income_cents := sumAmounts (txns.filter (fun t =>
      decide (txnInRange s e t ∧ t.type = "income")))
    expense_cents := sumAmounts (txns.filter (fun t =>
      decide (txnInRange s e t ∧ t.type = "expense"))) }

/-! ### Statistics service -/

/-- One trend bucket `{label, income, expense}` in minor units (the Python
dict holds `income / 100.0` and `expense / 100.0`). -/
structure TrendPoint where
  label : String
  income : Nat
  expense : Nat
deriving DecidableEq, Repr

/-- Result of the trend functions: granularity tag plus ordered buckets. -/
structure TrendResult where
  granularity : String
  data : List TrendPoint
deriving DecidableEq, Repr

/-- Lookup in `data_map = {item["date"]: item for item in raw_data}`: the
raw rows have pairwise distinct dates (`GROUP BY date`), so dict lookup is
the first (= only) match. -/
def rawLookup (raw : List DayRow) (lbl : String) : Option DayRow :=
  raw.find? (fun r => formatDate r.date == lbl)

/-- Loop body of `_get_daily_trend_advanced`: one bucket per visited date,
zero-filled when the date has no raw row. -/
def dailyLoop (raw : List DayRow) : Nat → Date → List TrendPoint
  | 0, _ => []
  | fuel + 1, cur =>
    (match rawLookup raw (formatDate cur) with
     | some item =>
       { label := formatDate cur, income := item.income, expense := item.expense }
     | none => { label := formatDate cur, income := 0, expense := 0 })
      :: dailyLoop raw fuel (nextDay cur)

/-- `StatisticsService._get_daily_trend_advanced`. -/
def get_daily_trend_advanced (txns : List Txn) (s e : Date)
    (category : Option String) : TrendResult :=
  { granularity := "day"
    data := dailyLoop (get_daily_summary_by_category txns s e category)
      (toOrdinal e + 1 - toOrdinal s) s }

/-- `weekly_map[week_key]["income"]`: total income of the raw rows whose ISO
week label is `lbl` (an absent key reads as the zero fill the code emits). -/
def weekIncome (raw : List DayRow) (lbl : String) : Nat :=
  ((raw.filter (fun r => weekLabel r.date == lbl)).map (fun r => r.income)).sum

/-- `weekly_map[week_key]["expense"]`. -/
def weekExpense (raw : List DayRow) (lbl : String) : Nat :=
  ((raw.filter (fun r => weekLabel r.date == lbl)).map (fun r => r.expense)).sum

/-- Loop body of `_get_weekly_trend_advanced`: walk the dates, emitting one
bucket per first-encountered ISO week label, tracking `visited_weeks`. -/
def weeklyLoop (raw : List DayRow) : Nat → Date → List String → List TrendPoint
  | 0, _, _ => []
  | fuel + 1, cur, visited =>
    if weekLabel cur ∈ visited then weeklyLoop raw fuel (nextDay cur) visited
    else
      { label := weekLabel cur
        income := weekIncome raw (weekLabel cur)
        expense := weekExpense raw (weekLabel cur) }
        :: weeklyLoop raw fuel (nextDay cur) (weekLabel cur :: visited)

/-- `StatisticsService._get_weekly_trend_advanced`. -/
def get_weekly_trend_advanced (txns : List Txn) (s e : Date)
    (category : Option String) : TrendResult :=
  { granularity := "week"
    data := weeklyLoop (get_daily_summary_by_category txns s e category)
      (toOrdinal e + 1 - toOrdinal s) s [] }

/-- `monthly_map[month_key]["income"]` (keys are `item["date"][:7]`). -/
def monthIncome (raw : List DayRow) (lbl : String) : Nat :=
  ((raw.filter (fun r => monthKey r.date == lbl)).map (fun r => r.income)).sum

/-- `monthly_map[month_key]["expense"]`. -/
def monthExpense (raw : List DayRow) (lbl : String) : Nat :=
  ((raw.filter (fun r => monthKey r.date == lbl)).map (fun r => r.expense)).sum

/-- Loop body of `_get_monthly_trend_advanced`: enumerate `(year, month)`
from the start month while `(cy, cm) <= (ey, em)`, rolling over December.
On months `1..12` that tuple comparison is comparison of `monthIdx`, and
each iteration increases `monthIdx` by one, so the iteration count is the
fuel below. -/
def monthlyLoop (raw : List DayRow) : Nat → Nat → Nat → List TrendPoint
  | 0, _, _ => []
  | fuel + 1, cy, cm =>
    { label := monthLabel cy cm
      income := monthIncome raw (monthLabel cy cm)
      expense := monthExpense raw (monthLabel cy cm) }
      :: (if cm = 12 then monthlyLoop raw fuel (cy + 1) 1
          else monthlyLoop raw fuel cy (cm + 1))

/-- Linear month index used to count the `(year, month)` loop iterations. -/
def monthIdx (y m : Nat) : Nat := 12 * y + (m - 1)

/-- `StatisticsService._get_monthly_trend_advanced`. -/
def get_monthly_trend_advanced (txns : List Txn) (s e : Date)
    (category : Option String) : TrendResult :=
  { granularity := "month"
    data := monthlyLoop (get_daily_summary_by_category txns s e category)
      (monthIdx e.year e.month + 1 - monthIdx s.year s.month) s.year s.month }

/-- `yearly_map[year_key]["income"]` (keys are `item["date"][:4]`). -/
def yearIncome (raw : List DayRow) (lbl : String) : Nat :=
  ((raw.filter (fun r => yearKey r.date == lbl)).map (fun r => r.income)).sum

/-- `yearly_map[year_key]["expense"]`. -/
def yearExpense (raw : List DayRow) (lbl : String) : Nat :=
  ((raw.filter (fun r => yearKey r.date == lbl)).map (fun r => r.expense)).sum

/-- `StatisticsService._get_yearly_trend_advanced`:
`for year in range(start.year, end.year + 1)`. -/
def get_yearly_trend_advanced (txns : List Txn) (s e : Date)
    (category : Option String) : TrendResult :=
  { granularity := "year"
    data := (List.range (e.year + 1 - s.year)).map (fun i =>
      { label := yearLabel (s.year + i)
        income := yearIncome (get_daily_summary_by_category txns s e category)
          (yearLabel (s.year + i))
        expense := yearExpense (get_daily_summary_by_category txns s e category)
          (yearLabel (s.year + i)) }) }

/-- `StatisticsService.get_trend_data_advanced`: dispatch on the granularity
string; anything unrecognized falls back to the daily branch.  The
`start_date`/`end_date` arguments are the dates `strptime` parsed. -/
def get_trend_data_advanced (txns : List Txn) (s e : Date)
    (granularity : String) (category : Option String) : TrendResult :=
  if granularity = "day" then get_daily_trend_advanced txns s e category
  else if granularity = "week" then get_weekly_trend_advanced txns s e category
  else if granularity = "month" then get_monthly_trend_advanced txns s e category
  else if granularity = "year" then get_yearly_trend_advanced txns s e category
  else get_daily_trend_advanced txns s e category

/-- One entry of `get_category_breakdown` (percentage in `ℚ`; the Python
float also carries `amount = amount_cents / 100.0`, omitted here). -/
structure BreakdownEntry where
  category : String
  amount_cents : Nat
  percentage : Rat
deriving DecidableEq, Repr

/-- Body of `StatisticsService.get_category_breakdown` as a function of the
rows returned by the storage read: `total = sum(amount_cents)`, percentage
`amount / total * 100` guarded by `if total > 0 else 0`.  The input order is
preserved — the service itself does not sort. -/
def category_breakdown_raw (raw : List CatRow) : List BreakdownEntry :=
  raw.map (fun item =>
    { category := item.category
      amount_cents := item.amount_cents
      percentage :=
        if 0 < (raw.map (fun r => r.amount_cents)).sum then
          (item.amount_cents : Rat) / ((raw.map (fun r => r.amount_cents)).sum : Rat) * 100
        else 0 })

/-- `StatisticsService.get_category_breakdown`. -/
def get_category_breakdown (txns : List Txn) (s e : Date) (tx_type : String) :
    List BreakdownEntry :=
  category_breakdown_raw (get_category_summary txns s e tx_type)

/-- `StatisticsService.get_month_range`, as the pair of boundary dates whose
`YYYY-MM-DD` renderings the Python function returns
(`YYYY-MM-01` and `YYYY-MM-<monthrange last day>`). -/
def get_month_range (y m : Nat) : Date × Date :=
  (⟨y, m, 1⟩, ⟨y, m, monthLength y m⟩)

/-- `StatisticsService.get_current_month_summary` (`date.today()` passed
explicitly, per the spec's injected-clock reading). -/
def get_current_month_summary (txns : List Txn) (today : Date) : PeriodSummary :=
  get_summary_by_date_range txns (get_month_range today.year today.month).1
    (get_month_range today.year today.month).2

/-- `StatisticsService.get_last_month_summary`: previous month, rolling a
January back to December of the previous year. -/
def get_last_month_summary (txns : List Txn) (today : Date) : PeriodSummary :=
  if today.month = 1 then
    get_summary_by_date_range txns (get_month_range (today.year - 1) 12).1
      (get_month_range (today.year - 1) 12).2
  else
    get_summary_by_date_range txns (get_month_range today.year (today.month - 1)).1
      (get_month_range today.year (today.month - 1)).2

/-- Result of `get_month_over_month_change` (minor units and `ℚ`
percentages; the float display fields divide the cents by `100.0`). -/
structure MoMChange where
  expense_change_cents : Int
  expense_change_pct : Rat
  income_change_cents : Int
  income_change_pct : Rat
deriving DecidableEq, Repr

/-- `StatisticsService.get_month_over_month_change`: current month minus
previous month; each percentage is guarded by `if last > 0 else 0`. -/
def get_month_over_month_change (txns : List Txn) (today : Date) : MoMChange :=
  { expense_change_cents :=
      ((get_current_month_summary txns today).expense_cents : Int)
        - ((get_last_month_summary txns today).expense_cents : Int)
    expense_change_pct :=
      if 0 < (get_last_month_summary txns today).expense_cents then
        (((get_current_month_summary txns today).expense_cents : Rat)
            - ((get_last_month_summary txns today).expense_cents : Rat))
          / ((get_last_month_summary txns today).expense_cents : Rat) * 100
      else 0
    income_change_cents :=
      ((get_current_month_summary txns today).income_cents : Int)
        - ((get_last_month_summary txns today).income_cents : Int)
    income_change_pct :=
      if 0 < (get_last_month_summary txns today).income_cents then
        (((get_current_month_summary txns today).income_cents : Rat)
            - ((get_last_month_summary txns today).income_cents : Rat))
          / ((get_last_month_summary txns today).income_cents : Rat) * 100
      else 0 }

/-- The month-decrement loop `for _ in range(n - 1)` of
`get_last_n_full_months_range`; years are Python ints (they may in principle
go below zero for huge `n`). -/
def decMonths : Nat → Int × Nat → Int × Nat
  | 0, ym => ym
  | k + 1, ym =>
    decMonths k (if ym.2 = 1 then (ym.1 - 1, 12) else (ym.1, ym.2 - 1))

/-- `StatisticsService.get_last_n_full_months_range`, with `date.today()`
passed explicitly.  `range(n - 1)` is empty for `n ≤ 1`, hence
`(n - 1).toNat` iterations. -/
def get_last_n_full_months_range (today : Date) (n : Int) : String × String :=
  let endY : Int := if today.month = 1 then (today.year : Int) - 1 else (today.year : Int)
  let endM : Nat := if today.month = 1 then 12 else today.month - 1
  let endDate : String :=
    pad4Int endY ++ "-" ++ pad2 endM ++ "-" ++ pad2 (monthLength endY.toNat endM)
  let sp : Int × Nat := decMonths (n - 1).toNat (endY, endM)
  (pad4Int sp.1 ++ "-" ++ pad2 sp.2 ++ "-01", endDate)

/-! ### Monthly trend lemmas -/

/-- The `(year, month)` pairs visited by the month loop of
`_get_monthly_trend_advanced`. -/
def monthWalk : Nat → Nat → Nat → List (Nat × Nat)
  | 0, _, _ => []
  | fuel + 1, cy, cm =>
    (cy, cm) :: (if cm = 12 then monthWalk fuel (cy + 1) 1
                 else monthWalk fuel cy (cm + 1))

/-! ### The month-decrement loop of `get_last_n_full_months_range` -/

/-- Linear month index over Python int years, to state what the decrement
loop computes. -/
def monthIdxZ (y : Int) (m : Nat) : Int := 12 * y + ((m : Int) - 1)

/-! ### Calendar lemmas -/

theorem daysBeforeMonth_step (y m : Nat) (h1 : 1 ≤ m) (h2 : m ≤ 12) :
    daysBeforeMonth y (m + 1) = daysBeforeMonth y m + monthLength y m := by
  interval_cases m <;>
    rcases Bool.eq_false_or_eq_true (isLeap y) with hc | hc <;>
      simp +arith +decide [daysBeforeMonth, monthLength, daysBeforeMonthTable,
        daysInMonthTable, hc]

theorem daysBeforeMonth_13_leap (y : Nat) (h : isLeap y = true) :
    daysBeforeMonth y 13 = 366 := by
  simp +arith +decide [daysBeforeMonth, daysBeforeMonthTable, h]

theorem daysBeforeMonth_13_nonleap (y : Nat) (h : isLeap y = false) :
    daysBeforeMonth y 13 = 365 := by
  simp +arith +decide [daysBeforeMonth, daysBeforeMonthTable, h]

theorem daysBeforeMonth_mono (y : Nat) {m1 m2 : Nat} (h1 : 1 ≤ m1)
    (h2 : m1 ≤ m2) (h3 : m2 ≤ 13) : daysBeforeMonth y m1 ≤ daysBeforeMonth y m2 := by
  induction m2, h2 using Nat.le_induction with
  | base => exact le_refl _
  | succ m hm ih =>
    have hb : daysBeforeMonth y m1 ≤ daysBeforeMonth y m := ih (by omega)
    have := daysBeforeMonth_step y m (by omega) (by omega)
    omega

theorem isLeap_iff (y : Nat) :
    isLeap y = true ↔ (y % 4 = 0 ∧ y % 100 ≠ 0) ∨ y % 400 = 0 := by
  simp [isLeap]

theorem daysBeforeYear_step_leap (y : Nat) (h : 1 ≤ y) (hc : isLeap y = true) :
    daysBeforeYear (y + 1) = daysBeforeYear y + 366 := by
  have hl := (isLeap_iff y).mp hc
  have e4 := Nat.succ_div (y - 1) 4
  have e100 := Nat.succ_div (y - 1) 100
  have e400 := Nat.succ_div (y - 1) 400
  rw [Nat.sub_add_cancel h] at e4 e100 e400
  simp only [Nat.dvd_iff_mod_eq_zero] at e4 e100 e400
  rcases hl with ⟨h4, h100⟩ | h400
  · have h400 : ¬(y % 400 = 0) := fun hp => h100 (by omega)
    rw [if_pos h4] at e4
    rw [if_neg h100] at e100
    rw [if_neg h400] at e400
    simp only [daysBeforeYear, Nat.add_sub_cancel]
    omega
  · have h4 : y % 4 = 0 := by omega
    have h100 : y % 100 = 0 := by omega
    rw [if_pos h4] at e4
    rw [if_pos h100] at e100
    rw [if_pos h400] at e400
    simp only [daysBeforeYear, Nat.add_sub_cancel]
    omega

theorem daysBeforeYear_step_nonleap (y : Nat) (h : 1 ≤ y) (hc : isLeap y = false) :
    daysBeforeYear (y + 1) = daysBeforeYear y + 365 := by
  have hc2 : ¬((y % 4 = 0 ∧ y % 100 ≠ 0) ∨ y % 400 = 0) := by
    intro hp
    have := (isLeap_iff y).mpr hp
    rw [hc] at this
    exact Bool.false_ne_true this
  have e4 := Nat.succ_div (y - 1) 4
  have e100 := Nat.succ_div (y - 1) 100
  have e400 := Nat.succ_div (y - 1) 400
  rw [Nat.sub_add_cancel h] at e4 e100 e400
  simp only [Nat.dvd_iff_mod_eq_zero] at e4 e100 e400
  have h400 : ¬(y % 400 = 0) := fun hp => hc2 (Or.inr hp)
  rw [if_neg h400] at e400
  by_cases h4 : y % 4 = 0
  · have h100 : y % 100 = 0 := by
      by_contra h100
      exact hc2 (Or.inl ⟨h4, h100⟩)
    rw [if_pos h4] at e4
    rw [if_pos h100] at e100
    simp only [daysBeforeYear, Nat.add_sub_cancel]
    omega
  · have h100 : ¬(y % 100 = 0) := fun hp => h4 (by omega)
    rw [if_neg h4] at e4
    rw [if_neg h100] at e100
    simp only [daysBeforeYear, Nat.add_sub_cancel]
    omega

theorem daysBeforeYear_step_ge (y : Nat) (h : 1 ≤ y) :
    daysBeforeYear y + 365 ≤ daysBeforeYear (y + 1) := by
  rcases Bool.eq_false_or_eq_true (isLeap y) with hc | hc
  · rw [daysBeforeYear_step_leap y h hc]; omega
  · rw [daysBeforeYear_step_nonleap y h hc]

theorem daysBeforeYear_mono {y1 y2 : Nat} (h : y1 ≤ y2) :
    daysBeforeYear y1 ≤ daysBeforeYear y2 := by
  induction y2, h using Nat.le_induction with
  | base => exact le_refl _
  | succ y hy ih =>
    rcases Nat.eq_zero_or_pos y with h0 | h0
    · have hz : y1 = 0 := by omega
      subst hz; subst h0
      decide
    · have := daysBeforeYear_step_ge y h0
      omega

theorem monthLength_pos (y m : Nat) (h1 : 1 ≤ m) (h2 : m ≤ 12) :
    1 ≤ monthLength y m := by
  interval_cases m <;>
    rcases Bool.eq_false_or_eq_true (isLeap y) with hc | hc <;>
      simp +decide [monthLength, daysInMonthTable, hc]

theorem toOrdinal_le_year_end {d : Date} (h : d.Valid) :
    toOrdinal d ≤ daysBeforeYear (d.year + 1) := by
  obtain ⟨h1, h2, h3, h4, h5, h6⟩ := h
  have hs := daysBeforeMonth_step d.year d.month h3 h4
  have hm : daysBeforeMonth d.year (d.month + 1) ≤ daysBeforeMonth d.year 13 :=
    daysBeforeMonth_mono d.year (by omega) (by omega) (by omega)
  rcases Bool.eq_false_or_eq_true (isLeap d.year) with hc | hc
  · have h13 := daysBeforeMonth_13_leap d.year hc
    have hy := daysBeforeYear_step_leap d.year h1 hc
    unfold toOrdinal
    omega
  · have h13 := daysBeforeMonth_13_nonleap d.year hc
    have hy := daysBeforeYear_step_nonleap d.year h1 hc
    unfold toOrdinal
    omega

theorem toOrdinal_year_lb {d : Date} (h : d.Valid) :
    daysBeforeYear d.year + 1 ≤ toOrdinal d := by
  obtain ⟨h1, h2, h3, h4, h5, h6⟩ := h
  unfold toOrdinal
  omega

theorem toOrdinal_lt_of_dateLT {a b : Date} (ha : a.Valid) (hb : b.Valid)
    (h : dateLT a b) : toOrdinal a < toOrdinal b := by
  obtain ⟨ha1, ha2, ha3, ha4, ha5, ha6⟩ := ha
  obtain ⟨hb1, hb2, hb3, hb4, hb5, hb6⟩ := hb
  rcases h with hy | ⟨hy, hm | ⟨hm, hd⟩⟩
  · have h1 : toOrdinal a ≤ daysBeforeYear (a.year + 1) :=
      toOrdinal_le_year_end ⟨ha1, ha2, ha3, ha4, ha5, ha6⟩
    have h2 : daysBeforeYear (a.year + 1) ≤ daysBeforeYear b.year :=
      daysBeforeYear_mono (by omega)
    have h3 : daysBeforeYear b.year + 1 ≤ toOrdinal b :=
      toOrdinal_year_lb ⟨hb1, hb2, hb3, hb4, hb5, hb6⟩
    omega
  · have hs := daysBeforeMonth_step a.year a.month ha3 ha4
    have hmm : daysBeforeMonth a.year (a.month + 1) ≤ daysBeforeMonth a.year b.month :=
      daysBeforeMonth_mono a.year (by omega) (by omega) (by omega)
    unfold toOrdinal
    rw [← hy] at hb6 ⊢
    omega
  · unfold toOrdinal
    rw [← hy, ← hm]
    omega

theorem dateLT_trichotomy (a b : Date) : dateLT a b ∨ a = b ∨ dateLT b a := by
  obtain ⟨ay, am, ad⟩ := a
  obtain ⟨by_, bm, bd⟩ := b
  simp only [dateLT, Date.mk.injEq]
  omega

theorem dateLT_iff_ord {a b : Date} (ha : a.Valid) (hb : b.Valid) :
    dateLT a b ↔ toOrdinal a < toOrdinal b := by
  constructor
  · exact toOrdinal_lt_of_dateLT ha hb
  · intro h
    rcases dateLT_trichotomy a b with h1 | h1 | h1
    · exact h1
    · subst h1; omega
    · have := toOrdinal_lt_of_dateLT hb ha h1
      omega

theorem dateLE_iff_ord {a b : Date} (ha : a.Valid) (hb : b.Valid) :
    dateLE a b ↔ toOrdinal a ≤ toOrdinal b := by
  have h1 := dateLT_iff_ord hb ha
  obtain ⟨ay, am, ad⟩ := a
  obtain ⟨by_, bm, bd⟩ := b
  simp only [dateLT, dateLE] at *
  omega

theorem toOrdinal_inj {a b : Date} (ha : a.Valid) (hb : b.Valid)
    (h : toOrdinal a = toOrdinal b) : a = b := by
  rcases dateLT_trichotomy a b with h1 | h1 | h1
  · have := toOrdinal_lt_of_dateLT ha hb h1; omega
  · exact h1
  · have := toOrdinal_lt_of_dateLT hb ha h1; omega

theorem toOrdinal_nextDay {d : Date} (h : d.Valid) :
    toOrdinal (nextDay d) = toOrdinal d + 1 := by
  obtain ⟨h1, h2, h3, h4, h5, h6⟩ := h
  unfold nextDay
  split_ifs with hd hm
  · simp only [toOrdinal]
    omega
  · have hs := daysBeforeMonth_step d.year d.month h3 (by omega)
    simp only [toOrdinal]
    omega
  · have hm12 : d.month = 12 := by omega
    have hml : monthLength d.year 12 = 31 := by simp +decide [monthLength, daysInMonthTable]
    have hd31 : d.day = 31 := by rw [hm12] at h6 hd; omega
    have h12 : daysBeforeMonth d.year 13 = daysBeforeMonth d.year 12 + monthLength d.year 12 :=
      daysBeforeMonth_step d.year 12 (by omega) (by omega)
    have hbm1 : daysBeforeMonth (d.year + 1) 1 = 0 := by
      simp [daysBeforeMonth, daysBeforeMonthTable]
    simp only [toOrdinal]
    rw [hm12, hd31]
    rcases Bool.eq_false_or_eq_true (isLeap d.year) with hc | hc
    · have h13 := daysBeforeMonth_13_leap d.year hc
      have hy := daysBeforeYear_step_leap d.year h1 hc
      omega
    · have h13 := daysBeforeMonth_13_nonleap d.year hc
      have hy := daysBeforeYear_step_nonleap d.year h1 hc
      omega

theorem maxDate_ord : toOrdinal ⟨9999, 12, 31⟩ = 3652059 := by decide

theorem valid_ord_le {d : Date} (h : d.Valid) : toOrdinal d ≤ 3652059 := by
  have h1 := toOrdinal_le_year_end h
  have hy : d.year ≤ 9999 := h.2.1
  have h2 : daysBeforeYear (d.year + 1) ≤ daysBeforeYear 10000 :=
    daysBeforeYear_mono (by omega)
  have h3 : daysBeforeYear 10000 = 3652059 := by decide
  omega

theorem nextDay_valid {d : Date} (h : d.Valid) (hlt : toOrdinal d < 3652059) :
    (nextDay d).Valid := by
  obtain ⟨h1, h2, h3, h4, h5, h6⟩ := h
  unfold nextDay
  split_ifs with hd hm
  · exact ⟨h1, h2, h3, h4, show 1 ≤ d.day + 1 by omega,
      show d.day + 1 ≤ monthLength d.year d.month by omega⟩
  · have hp := monthLength_pos d.year (d.month + 1) (by omega) (by omega)
    exact ⟨h1, h2, show 1 ≤ d.month + 1 by omega, show d.month + 1 ≤ 12 by omega,
      le_refl 1, hp⟩
  · have hy : d.year < 9999 := by
      by_contra hy
      have h9 : d.year = 9999 := by omega
      have hm12 : d.month = 12 := by omega
      have hml : monthLength d.year 12 = 31 := by simp +decide [monthLength, daysInMonthTable]
      have hd31 : d.day = 31 := by rw [hm12] at h6 hd; omega
      have hde : d = ⟨9999, 12, 31⟩ := by
        obtain ⟨a, b, c⟩ := d
        simp only at h9 hm12 hd31
        rw [h9, hm12, hd31]
      rw [hde, maxDate_ord] at hlt
      omega
    have hp := monthLength_pos (d.year + 1) 1 (by omega) (by omega)
    exact ⟨show 1 ≤ d.year + 1 by omega, show d.year + 1 ≤ 9999 by omega,
      le_refl 1, show (1 : Nat) ≤ 12 by omega, le_refl 1, hp⟩

theorem dateListAux_spec :
    ∀ (fuel : Nat) (cur : Date), cur.Valid → toOrdinal cur + fuel ≤ 3652060 →
      (∀ d ∈ dateListAux fuel cur, d.Valid) ∧
      (dateListAux fuel cur).map toOrdinal = List.range' (toOrdinal cur) fuel := by
  intro fuel
  induction fuel with
  | zero =>
    intro cur hv hb
    constructor
    · intro d hd
      simp [dateListAux] at hd
    · simp [dateListAux]
  | succ k ih =>
    intro cur hv hb
    rcases Nat.eq_zero_or_pos k with hk | hk
    · subst hk
      constructor
      · intro d hd
        simp only [dateListAux, List.mem_cons, List.not_mem_nil, or_false] at hd
        rw [hd]
        exact hv
      · simp [dateListAux, List.range'_succ]
    · have hlt : toOrdinal cur < 3652059 := by
        have := valid_ord_le hv
        omega
      have hnv := nextDay_valid hv hlt
      have hno := toOrdinal_nextDay hv
      obtain ⟨A, B⟩ := ih (nextDay cur) hnv (by omega)
      constructor
      · intro d hd
        rcases List.mem_cons.mp hd with rfl | hd
        · exact hv
        · exact A d hd
      · simp only [dateListAux, List.map_cons, B, List.range'_succ, hno]

theorem dateList_valid {s e : Date} (hs : s.Valid) (he : e.Valid) :
    ∀ d ∈ dateList s e, d.Valid := by
  have hb : toOrdinal s + (toOrdinal e + 1 - toOrdinal s) ≤ 3652060 := by
    have := valid_ord_le hs
    have := valid_ord_le he
    omega
  exact (dateListAux_spec _ s hs hb).1

theorem dateList_map_ord {s e : Date} (hs : s.Valid) (he : e.Valid) :
    (dateList s e).map toOrdinal =
      List.range' (toOrdinal s) (toOrdinal e + 1 - toOrdinal s) := by
  have hb : toOrdinal s + (toOrdinal e + 1 - toOrdinal s) ≤ 3652060 := by
    have := valid_ord_le hs
    have := valid_ord_le he
    omega
  exact (dateListAux_spec _ s hs hb).2

theorem dateList_length {s e : Date} (hs : s.Valid) (he : e.Valid) :
    (dateList s e).length = toOrdinal e + 1 - toOrdinal s := by
  have h := congrArg List.length (dateList_map_ord hs he)
  simpa using h

theorem mem_dateList {s e d : Date} (hs : s.Valid) (he : e.Valid) :
    d ∈ dateList s e ↔ d.Valid ∧ dateLE s d ∧ dateLE d e := by
  constructor
  · intro hd
    have hv := dateList_valid hs he d hd
    have hm : toOrdinal d ∈ (dateList s e).map toOrdinal :=
      List.mem_map_of_mem toOrdinal hd
    rw [dateList_map_ord hs he, List.mem_range'_1] at hm
    exact ⟨hv, (dateLE_iff_ord hs hv).mpr (by omega),
      (dateLE_iff_ord hv he).mpr (by omega)⟩
  · rintro ⟨hv, h1, h2⟩
    have ho1 := (dateLE_iff_ord hs hv).mp h1
    have ho2 := (dateLE_iff_ord hv he).mp h2
    have hm : toOrdinal d ∈ List.range' (toOrdinal s) (toOrdinal e + 1 - toOrdinal s) := by
      rw [List.mem_range'_1]
      omega
    rw [← dateList_map_ord hs he] at hm
    obtain ⟨x, hx, hxo⟩ := List.mem_map.mp hm
    have hxv := dateList_valid hs he x hx
    rwa [toOrdinal_inj hxv hv hxo] at hx

theorem dateList_pairwise {s e : Date} (hs : s.Valid) (he : e.Valid) :
    (dateList s e).Pairwise dateLT := by
  have hmap : ((dateList s e).map toOrdinal).Pairwise (· < ·) := by
    rw [dateList_map_ord hs he]
    exact List.pairwise_lt_range' _ _
  rw [List.pairwise_map] at hmap
  refine hmap.imp_of_mem ?_
  intro a b ha hb hlt
  exact (dateLT_iff_ord (dateList_valid hs he a ha) (dateList_valid hs he b hb)).mpr hlt

theorem dateList_nodup {s e : Date} (hs : s.Valid) (he : e.Valid) :
    (dateList s e).Nodup := by
  apply List.Nodup.of_map toOrdinal
  rw [dateList_map_ord hs he]
  exact List.nodup_range' _ _

theorem dateList_empty {s e : Date} (h : toOrdinal e < toOrdinal s) :
    dateList s e = [] := by
  unfold dateList
  rw [show toOrdinal e + 1 - toOrdinal s = 0 from by omega]
  rfl

theorem jan1ord_eq (y : Nat) : jan1ord y = (daysBeforeYear y : Int) + 1 := by
  have hf : toOrdinal ⟨y, 1, 1⟩ = daysBeforeYear y + 1 := rfl
  unfold jan1ord
  rw [hf]
  push_cast
  ring

theorem isoweek1monday_spec (y : Nat) :
    (daysBeforeYear y : Int) - 2 ≤ isoweek1monday y ∧
      isoweek1monday y ≤ (daysBeforeYear y : Int) + 4 ∧
      isoweek1monday y % 7 = 1 := by
  unfold isoweek1monday
  rw [jan1ord_eq]
  split_ifs with hc <;> omega

theorem isoweek1monday_step (y : Nat) (h : 1 ≤ y) :
    isoweek1monday y + 364 ≤ isoweek1monday (y + 1) ∧
      isoweek1monday (y + 1) ≤ isoweek1monday y + 371 := by
  obtain ⟨a1, a2, a3⟩ := isoweek1monday_spec y
  obtain ⟨b1, b2, b3⟩ := isoweek1monday_spec (y + 1)
  have hs := daysBeforeYear_step_ge y h
  have hs2 : daysBeforeYear (y + 1) ≤ daysBeforeYear y + 366 := by
    rcases Bool.eq_false_or_eq_true (isLeap y) with hc | hc
    · rw [daysBeforeYear_step_leap y h hc]
    · rw [daysBeforeYear_step_nonleap y h hc]; omega
  omega

theorem isoweek1monday_mono {y1 y2 : Nat} (h1 : 1 ≤ y1) (h : y1 ≤ y2) :
    isoweek1monday y1 ≤ isoweek1monday y2 := by
  induction y2, h using Nat.le_induction with
  | base => exact le_refl _
  | succ y hy ih =>
    have := (isoweek1monday_step y (by omega)).1
    omega

theorem isocalendarYW_spec {d : Date} (h : d.Valid) :
    1 ≤ (isocalendarYW d).1 ∧
      isoweek1monday (isocalendarYW d).1 ≤ (toOrdinal d : Int) ∧
      (toOrdinal d : Int) < isoweek1monday ((isocalendarYW d).1 + 1) ∧
      (isocalendarYW d).2 =
        ((toOrdinal d : Int) - isoweek1monday (isocalendarYW d).1) / 7 + 1 := by
  have h1 : 1 ≤ d.year := h.1
  have hylb := toOrdinal_year_lb h
  have hyub := toOrdinal_le_year_end h
  obtain ⟨wy1, wy2, wy3⟩ := isoweek1monday_spec d.year
  obtain ⟨ws1, ws2, ws3⟩ := isoweek1monday_spec (d.year + 1)
  have hstep := isoweek1monday_step d.year h1
  have hs2 : daysBeforeYear d.year + 365 ≤ daysBeforeYear (d.year + 1) :=
    daysBeforeYear_step_ge d.year h1
  unfold isocalendarYW
  split_ifs with hc1 hc2
  · have hy2 : 2 ≤ d.year := by
      by_contra hy
      have hy1 : d.year = 1 := by omega
      rw [hy1] at hc1
      have hw1 : isoweek1monday 1 = 1 := by decide
      have hdb : daysBeforeYear 1 = 0 := by decide
      rw [hw1] at hc1
      rw [hy1, hdb] at hylb
      omega
    obtain ⟨wp1, wp2, wp3⟩ := isoweek1monday_spec (d.year - 1)
    have hcan : d.year - 1 + 1 = d.year := by omega
    have hbp : daysBeforeYear (d.year - 1) + 365 ≤ daysBeforeYear d.year := by
      have hg := daysBeforeYear_step_ge (d.year - 1) (by omega)
      rw [hcan] at hg
      exact hg
    dsimp only
    rw [hcan]
    exact ⟨by omega, by omega, by omega, rfl⟩
  · obtain ⟨hc2a, hc2b⟩ := hc2
    obtain ⟨wq1, wq2, wq3⟩ := isoweek1monday_spec (d.year + 2)
    have hplus : d.year + 1 + 1 = d.year + 2 := rfl
    have hs3 : daysBeforeYear (d.year + 1) + 365 ≤ daysBeforeYear (d.year + 2) := by
      have hg := daysBeforeYear_step_ge (d.year + 1) (by omega)
      rw [hplus] at hg
      exact hg
    dsimp only
    rw [hplus]
    refine ⟨by omega, by omega, by omega, ?_⟩
    have hz : ((toOrdinal d : Int) - isoweek1monday (d.year + 1)) / 7 = 0 := by omega
    omega
  · rcases not_and_or.mp hc2 with hc2 | hc2
    · dsimp only
      refine ⟨by omega, by omega, ?_, rfl⟩
      omega
    · dsimp only
      exact ⟨by omega, by omega, by omega, rfl⟩

/-- The `(iso_year, iso_week)` pair is monotone in the date: ISO weeks are
visited in chronological order as the date advances. -/
theorem isocalendarYW_mono {a b : Date} (ha : a.Valid) (hb : b.Valid)
    (h : toOrdinal a ≤ toOrdinal b) :
    isoLT (isocalendarYW a) (isocalendarYW b) ∨ isocalendarYW a = isocalendarYW b := by
  obtain ⟨a1, a2, a3, a4⟩ := isocalendarYW_spec ha
  obtain ⟨b1, b2, b3, b4⟩ := isocalendarYW_spec hb
  have hyy : (isocalendarYW a).1 ≤ (isocalendarYW b).1 := by
    by_contra hyy
    have hmono : isoweek1monday ((isocalendarYW b).1 + 1) ≤
        isoweek1monday (isocalendarYW a).1 :=
      isoweek1monday_mono (by omega) (by omega)
    omega
  rcases Nat.lt_or_ge (isocalendarYW a).1 (isocalendarYW b).1 with hlt | hge
  · exact Or.inl (Or.inl hlt)
  · have heq : (isocalendarYW a).1 = (isocalendarYW b).1 := by omega
    rw [heq] at a4 a2
    have hw : (isocalendarYW a).2 ≤ (isocalendarYW b).2 := by
      rw [a4, b4]
      omega
    rcases Int.lt_or_le (isocalendarYW a).2 (isocalendarYW b).2 with hwlt | hwle
    · exact Or.inl (Or.inr ⟨heq, hwlt⟩)
    · right
      have : (isocalendarYW a).2 = (isocalendarYW b).2 := by omega
      exact Prod.ext heq this

/-- For valid dates the ISO week number is at least 1 (so formatting it via
`Int.toNat` is faithful to Python's `{:02d}` on the nonnegative int). -/
theorem isocalendarYW_week_pos {d : Date} (h : d.Valid) :
    1 ≤ (isocalendarYW d).2 := by
  obtain ⟨h1, h2, h3, h4⟩ := isocalendarYW_spec h
  have : 0 ≤ ((toOrdinal d : Int) - isoweek1monday (isocalendarYW d).1) / 7 := by
    omega
  omega

theorem digitChar_inj {a b : Nat} (ha : a < 10) (hb : b < 10)
    (h : Nat.digitChar a = Nat.digitChar b) : a = b := by
  revert h
  interval_cases a <;> interval_cases b <;> decide

theorem pad4_inj_data {a b : Nat} (ha : a ≤ 9999) (hb : b ≤ 9999)
    (h : (pad4 a).data = (pad4 b).data) : a = b := by
  unfold pad4 at h
  rw [if_pos ha, if_pos hb] at h
  simp only [List.cons.injEq, and_true] at h
  obtain ⟨h1, h2, h3, h4⟩ := h
  have e1 := digitChar_inj (by omega) (by omega) h1
  have e2 := digitChar_inj (by omega) (by omega) h2
  have e3 := digitChar_inj (by omega) (by omega) h3
  have e4 := digitChar_inj (by omega) (by omega) h4
  omega

theorem pad2_inj_data {a b : Nat} (ha : a ≤ 99) (hb : b ≤ 99)
    (h : (pad2 a).data = (pad2 b).data) : a = b := by
  unfold pad2 at h
  rw [if_pos ha, if_pos hb] at h
  simp only [List.cons.injEq, and_true] at h
  obtain ⟨h1, h2⟩ := h
  have e1 := digitChar_inj (by omega) (by omega) h1
  have e2 := digitChar_inj (by omega) (by omega) h2
  omega

theorem pad4_len {a : Nat} (ha : a ≤ 9999) : (pad4 a).data.length = 4 := by
  unfold pad4
  rw [if_pos ha]
  rfl

theorem pad2_len {a : Nat} (ha : a ≤ 99) : (pad2 a).data.length = 2 := by
  unfold pad2
  rw [if_pos ha]
  rfl

theorem monthLength_le_31 (y m : Nat) (h1 : 1 ≤ m) (h2 : m ≤ 12) :
    monthLength y m ≤ 31 := by
  interval_cases m <;>
    rcases Bool.eq_false_or_eq_true (isLeap y) with hc | hc <;>
      simp +decide [monthLength, daysInMonthTable, hc]

theorem formatDate_data (d : Date) :
    (formatDate d).data =
      (pad4 d.year).data ++ '-' :: ((pad2 d.month).data ++ '-' :: (pad2 d.day).data) := by
  simp [formatDate, String.data_append]

theorem formatDate_inj {a b : Date} (ha : a.Valid) (hb : b.Valid)
    (h : formatDate a = formatDate b) : a = b := by
  obtain ⟨ha1, ha2, ha3, ha4, ha5, ha6⟩ := ha
  obtain ⟨hb1, hb2, hb3, hb4, hb5, hb6⟩ := hb
  have hda : a.day ≤ 99 := by
    have := monthLength_le_31 a.year a.month ha3 ha4
    omega
  have hdb : b.day ≤ 99 := by
    have := monthLength_le_31 b.year b.month hb3 hb4
    omega
  have hd := congrArg String.data h
  rw [formatDate_data, formatDate_data] at hd
  obtain ⟨e1, e2⟩ := List.append_inj hd (by rw [pad4_len ha2, pad4_len hb2])
  simp only [List.cons.injEq, true_and] at e2
  obtain ⟨e3, e4⟩ := List.append_inj e2
    (by rw [pad2_len (by omega), pad2_len (by omega)])
  simp only [List.cons.injEq, true_and] at e4
  have hy := pad4_inj_data ha2 hb2 e1
  have hm := pad2_inj_data (by omega) (by omega) e3
  have hdd := pad2_inj_data hda hdb e4
  obtain ⟨ay, am, ad⟩ := a
  obtain ⟨by_, bm, bd⟩ := b
  simp only at hy hm hdd
  rw [hy, hm, hdd]

theorem monthLabel_data (y m : Nat) :
    (monthLabel y m).data = (pad4 y).data ++ '-' :: (pad2 m).data := by
  simp [monthLabel, String.data_append]

theorem monthLabel_inj {y1 m1 y2 m2 : Nat} (hy1 : y1 ≤ 9999) (hy2 : y2 ≤ 9999)
    (hm1 : m1 ≤ 99) (hm2 : m2 ≤ 99)
    (h : monthLabel y1 m1 = monthLabel y2 m2) : y1 = y2 ∧ m1 = m2 := by
  have hd := congrArg String.data h
  rw [monthLabel_data, monthLabel_data] at hd
  obtain ⟨e1, e2⟩ := List.append_inj hd (by rw [pad4_len hy1, pad4_len hy2])
  simp only [List.cons.injEq, true_and] at e2
  exact ⟨pad4_inj_data hy1 hy2 e1, pad2_inj_data hm1 hm2 e2⟩

theorem yearLabel_inj {y1 y2 : Nat} (hy1 : y1 ≤ 9999) (hy2 : y2 ≤ 9999)
    (h : yearLabel y1 = yearLabel y2) : y1 = y2 :=
  pad4_inj_data hy1 hy2 (congrArg String.data h)

/-! ### Generic summation lemmas -/

theorem sum_map_add {α : Type} (f g : α → Nat) (l : List α) :
    (l.map (fun x => f x + g x)).sum = (l.map f).sum + (l.map g).sum := by
  induction l with
  | nil => rfl
  | cons x l ih => simp only [List.map_cons, List.sum_cons, ih]; omega

theorem sum_ite_key {keys : List String} {k0 : String} (hn : keys.Nodup)
    (hm : k0 ∈ keys) (v : Nat) :
    (keys.map (fun k => if k0 = k then v else 0)).sum = v := by
  induction keys with
  | nil => cases hm
  | cons k ks ih =>
    rw [List.nodup_cons] at hn
    rcases List.mem_cons.mp hm with rfl | hm2
    · have hz : (ks.map (fun k => if k0 = k then v else 0)).sum = 0 := by
        apply List.sum_eq_zero
        intro x hx
        obtain ⟨k2, hk2, rfl⟩ := List.mem_map.mp hx
        have hne : k0 ≠ k2 := by
          rintro rfl
          exact hn.1 hk2
        simp [hne]
      simp only [List.map_cons, List.sum_cons, if_pos rfl, hz]
      simp
    · have hne : k0 ≠ k := by
        rintro rfl
        exact hn.1 hm2
      simp only [List.map_cons, List.sum_cons, if_neg hne]
      rw [ih hn.2 hm2]
      simp

theorem sum_fiber_partition {α : Type} (keyOf : α → String) (val : α → Nat) :
    ∀ (rows : List α) (keys : List String), keys.Nodup →
      (∀ r ∈ rows, keyOf r ∈ keys) →
      (keys.map (fun k => ((rows.filter (fun r => keyOf r == k)).map val).sum)).sum
        = (rows.map val).sum := by
  intro rows
  induction rows with
  | nil =>
    intro keys _ _
    simp
  | cons r rows ih =>
    intro keys hn hmem
    have hsplit : ∀ k : String,
        (((r :: rows).filter (fun x => keyOf x == k)).map val).sum
          = (if keyOf r = k then val r else 0)
            + ((rows.filter (fun x => keyOf x == k)).map val).sum := by
      intro k
      by_cases hk : keyOf r = k <;> simp [List.filter_cons, hk]
    simp only [hsplit, sum_map_add]
    rw [sum_ite_key hn (hmem r (List.mem_cons_self r rows)) (val r),
      ih keys hn (fun x hx => hmem x (List.mem_cons_of_mem r hx))]
    simp

theorem sum_ite_eq_sum_filter {α : Type} (p : α → Bool) (f : α → Nat) :
    ∀ l : List α,
      (l.map (fun x => if p x then f x else 0)).sum = ((l.filter p).map f).sum := by
  intro l
  induction l with
  | nil => rfl
  | cons x l ih => cases hx : p x <;> simp [List.filter_cons, hx, ih]

/-! ### Structure of the daily-summary rows -/

theorem raw_shape (txns : List Txn) (s e : Date) (cat : Option String) :
    get_daily_summary_by_category txns s e cat =
      ((dateList s e).filter (dayHasTxn txns s e)).map (fun d =>
        { date := d
          income := dayIncome txns s e d
          expense := dayExpense txns s e d cat }) := by
  cases cat <;> rfl

theorem raw_mem {txns : List Txn} {s e : Date} {cat : Option String} {r : DayRow}
    (hr : r ∈ get_daily_summary_by_category txns s e cat) :
    r.date ∈ dateList s e ∧ dayHasTxn txns s e r.date = true ∧
      r.income = dayIncome txns s e r.date ∧
      r.expense = dayExpense txns s e r.date cat := by
  rw [raw_shape] at hr
  obtain ⟨d, hd, rfl⟩ := List.mem_map.mp hr
  obtain ⟨hd1, hd2⟩ := List.mem_filter.mp hd
  exact ⟨hd1, hd2, rfl, rfl⟩

theorem raw_dates (txns : List Txn) (s e : Date) (cat : Option String) :
    (get_daily_summary_by_category txns s e cat).map (fun r => r.date)
      = (dateList s e).filter (dayHasTxn txns s e) := by
  rw [raw_shape, List.map_map]
  exact List.map_id _

theorem raw_dates_valid {txns : List Txn} {s e : Date} {cat : Option String}
    (hs : s.Valid) (he : e.Valid) {r : DayRow}
    (hr : r ∈ get_daily_summary_by_category txns s e cat) : r.date.Valid :=
  dateList_valid hs he _ (raw_mem hr).1

theorem txn_date_mem_raw_dates {txns : List Txn} {s e : Date} {t : Txn}
    (hs : s.Valid) (he : e.Valid) (ht : t ∈ txns) (htv : t.date.Valid)
    (hr : txnInRange s e t) (cat : Option String) :
    t.date ∈ (get_daily_summary_by_category txns s e cat).map (fun r => r.date) := by
  rw [raw_dates, List.mem_filter]
  refine ⟨(mem_dateList hs he).mpr ⟨htv, hr.1, hr.2⟩, ?_⟩
  unfold dayHasTxn
  simp only [decide_eq_true_eq]
  exact ⟨t, ht, hr, rfl⟩

theorem rawLookup_spec {txns : List Txn} {s e : Date} (hs : s.Valid) (he : e.Valid)
    (cat : Option String) {d : Date} (hd : d ∈ dateList s e) :
    rawLookup (get_daily_summary_by_category txns s e cat) (formatDate d) =
      if dayHasTxn txns s e d then
        some { date := d, income := dayIncome txns s e d,
               expense := dayExpense txns s e d cat }
      else none := by
  have hdv : d.Valid := dateList_valid hs he d hd
  by_cases hh : dayHasTxn txns s e d = true
  · rw [if_pos hh]
    rcases hf : rawLookup (get_daily_summary_by_category txns s e cat) (formatDate d)
      with _ | r
    · exfalso
      rw [rawLookup, List.find?_eq_none] at hf
      have hmem : (⟨d, dayIncome txns s e d, dayExpense txns s e d cat⟩ : DayRow)
          ∈ get_daily_summary_by_category txns s e cat := by
        rw [raw_shape]
        exact List.mem_map_of_mem _ (List.mem_filter.mpr ⟨hd, hh⟩)
      exact hf _ hmem (by simp)
    · have hrm := List.mem_of_find?_eq_some hf
      have hrp := List.find?_some hf
      simp only [beq_iff_eq] at hrp
      obtain ⟨hr1, hr2, hr3, hr4⟩ := raw_mem hrm
      have hrv : r.date.Valid := dateList_valid hs he _ hr1
      have hde : r.date = d := formatDate_inj hrv hdv hrp
      rw [hde] at hr3 hr4
      obtain ⟨rd, ri, re⟩ := r
      simp only at hde hr3 hr4
      rw [hde, hr3, hr4]
  · rw [if_neg hh]
    rw [rawLookup, List.find?_eq_none]
    intro r hrm hpred
    simp only [beq_iff_eq] at hpred
    obtain ⟨hr1, hr2, _, _⟩ := raw_mem hrm
    have hrv : r.date.Valid := dateList_valid hs he _ hr1
    have hde : r.date = d := formatDate_inj hrv hdv hpred
    rw [hde] at hr2
    exact hh hr2

/-! ### Daily trend lemmas -/

theorem dailyLoop_eq (raw : List DayRow) :
    ∀ (fuel : Nat) (cur : Date),
      dailyLoop raw fuel cur = (dateListAux fuel cur).map (fun d =>
        match rawLookup raw (formatDate d) with
        | some item =>
          { label := formatDate d, income := item.income, expense := item.expense }
        | none => { label := formatDate d, income := 0, expense := 0 }) := by
  intro fuel
  induction fuel with
  | zero => intro cur; rfl
  | succ k ih =>
    intro cur
    simp only [dailyLoop, dateListAux, List.map_cons, ih]

theorem dailyTrend_points {txns : List Txn} {s e : Date} (hs : s.Valid)
    (he : e.Valid) (cat : Option String) :
    (get_daily_trend_advanced txns s e cat).data = (dateList s e).map (fun d =>
      if dayHasTxn txns s e d then
        { label := formatDate d, income := dayIncome txns s e d,
          expense := dayExpense txns s e d cat }
      else { label := formatDate d, income := 0, expense := 0 }) := by
  show dailyLoop _ _ _ = _
  rw [dailyLoop_eq]
  apply List.map_congr_left
  intro d hd
  rw [rawLookup_spec hs he cat hd]
  by_cases hh : dayHasTxn txns s e d = true
  · rw [if_pos hh, if_pos hh]
  · rw [if_neg hh, if_neg hh]

/-! ### Weekly trend lemmas -/

set_option maxHeartbeats 2000000 in
theorem weeklyLoop_spec (raw : List DayRow) :
    ∀ (fuel : Nat) (cur : Date) (visited : List String),
      cur.Valid → toOrdinal cur + fuel ≤ 3652060 →
      ∃ ds : List Date,
        ds.Sublist (dateListAux fuel cur) ∧
        (weeklyLoop raw fuel cur visited).map (fun p => p.label) = ds.map weekLabel ∧
        (∀ d ∈ ds, weekLabel d ∉ visited) ∧
        ((weeklyLoop raw fuel cur visited).map (fun p => p.label)).Nodup ∧
        (∀ d ∈ dateListAux fuel cur, weekLabel d ∈ visited ∨
          weekLabel d ∈ (weeklyLoop raw fuel cur visited).map (fun p => p.label)) ∧
        (∀ p ∈ weeklyLoop raw fuel cur visited,
          p.income = weekIncome raw p.label ∧ p.expense = weekExpense raw p.label) := by
  intro fuel
  induction fuel with
  | zero =>
    intro cur visited hv hb
    refine ⟨[], List.nil_sublist _, rfl, ?_, ?_, ?_, ?_⟩
    · intro d hd; cases hd
    · exact List.nodup_nil
    · intro d hd; cases hd
    · intro p hp; cases hp
  | succ k ih =>
    intro cur visited hv hb
    rcases Nat.eq_zero_or_pos k with hk | hk
    · subst hk
      by_cases hcv : weekLabel cur ∈ visited
      · refine ⟨[], List.nil_sublist _, ?_, ?_, ?_, ?_, ?_⟩
        · simp [weeklyLoop, hcv]
        · intro d hd; cases hd
        · simp [weeklyLoop, hcv]
        · intro d hd
          simp only [dateListAux, List.mem_cons, List.not_mem_nil, or_false] at hd
          rw [hd]
          exact Or.inl hcv
        · intro p hp
          simp [weeklyLoop, hcv] at hp
      · refine ⟨[cur], ?_, ?_, ?_, ?_, ?_, ?_⟩
        · simp [dateListAux]
        · simp [weeklyLoop, hcv]
        · intro d hd
          simp only [List.mem_singleton] at hd
          rw [hd]
          exact hcv
        · simp [weeklyLoop, hcv]
        · intro d hd
          simp only [dateListAux, List.mem_cons, List.not_mem_nil, or_false] at hd
          rw [hd]
          refine Or.inr ?_
          simp [weeklyLoop, hcv]
        · intro p hp
          simp only [weeklyLoop, if_neg hcv, List.mem_singleton] at hp
          rw [hp]
          exact ⟨rfl, rfl⟩
    · have hlt : toOrdinal cur < 3652059 := by
        have := valid_ord_le hv
        omega
      have hnv := nextDay_valid hv hlt
      have hno := toOrdinal_nextDay hv
      by_cases hcv : weekLabel cur ∈ visited
      · obtain ⟨ds, h1, h2, h3, h4, h5, h6⟩ := ih (nextDay cur) visited hnv (by omega)
        refine ⟨ds, h1.cons _, ?_, h3, ?_, ?_, ?_⟩
        · simpa [weeklyLoop, hcv] using h2
        · simpa [weeklyLoop, hcv] using h4
        · intro d hd
          rcases List.mem_cons.mp hd with rfl | hd2
          · exact Or.inl hcv
          · simpa [weeklyLoop, hcv] using h5 d hd2
        · intro p hp
          simp only [weeklyLoop, if_pos hcv] at hp
          exact h6 p hp
      · obtain ⟨ds, h1, h2, h3, h4, h5, h6⟩ :=
          ih (nextDay cur) (weekLabel cur :: visited) hnv (by omega)
        refine ⟨cur :: ds, h1.cons₂ _, ?_, ?_, ?_, ?_, ?_⟩
        · simp only [weeklyLoop, if_neg hcv, List.map_cons]
          rw [h2]
        · intro d hd
          rcases List.mem_cons.mp hd with rfl | hd2
          · exact hcv
          · intro hmem
            exact h3 d hd2 (List.mem_cons_of_mem _ hmem)
        · simp only [weeklyLoop, if_neg hcv, List.map_cons]
          rw [List.nodup_cons]
          constructor
          · rw [h2]
            intro hmem
            obtain ⟨d, hd, hlbl⟩ := List.mem_map.mp hmem
            refine h3 d hd ?_
            rw [hlbl]
            exact List.mem_cons_self _ _
          · exact h4
        · intro d hd
          rcases List.mem_cons.mp hd with rfl | hd2
          · refine Or.inr ?_
            simp [weeklyLoop, hcv]
          · rcases h5 d hd2 with hv2 | hv2
            · rcases List.mem_cons.mp hv2 with heq | hv3
              · refine Or.inr ?_
                simp only [weeklyLoop, if_neg hcv, List.map_cons]
                rw [heq]
                exact List.mem_cons_self _ _
              · exact Or.inl hv3
            · refine Or.inr ?_
              simp only [weeklyLoop, if_neg hcv, List.map_cons]
              exact List.mem_cons_of_mem _ hv2
        · intro p hp
          simp only [weeklyLoop, if_neg hcv, List.mem_cons] at hp
          rcases hp with rfl | hp2
          · exact ⟨rfl, rfl⟩
          · exact h6 p hp2

theorem weeklyTrend_spec {txns : List Txn} {s e : Date} (hs : s.Valid) (he : e.Valid)
    (cat : Option String) :
    ∃ ds : List Date,
      ds.Sublist (dateList s e) ∧
      (get_weekly_trend_advanced txns s e cat).data.map (fun p => p.label)
        = ds.map weekLabel ∧
      ((get_weekly_trend_advanced txns s e cat).data.map (fun p => p.label)).Nodup ∧
      (∀ d ∈ dateList s e,
        weekLabel d ∈ (get_weekly_trend_advanced txns s e cat).data.map (fun p => p.label)) ∧
      (∀ p ∈ (get_weekly_trend_advanced txns s e cat).data,
        p.income = weekIncome (get_daily_summary_by_category txns s e cat) p.label ∧
        p.expense = weekExpense (get_daily_summary_by_category txns s e cat) p.label) ∧
      List.Pairwise isoLT (ds.map isocalendarYW) := by
  have hb : toOrdinal s + (toOrdinal e + 1 - toOrdinal s) ≤ 3652060 := by
    have := valid_ord_le hs
    have := valid_ord_le he
    omega
  obtain ⟨ds, h1, h2, h3, h4, h5, h6⟩ :=
    weeklyLoop_spec (get_daily_summary_by_category txns s e cat)
      (toOrdinal e + 1 - toOrdinal s) s [] hs hb
  have hds : ds.Sublist (dateList s e) := h1
  refine ⟨ds, hds, h2, h4, ?_, h6, ?_⟩
  · intro d hd
    rcases h5 d hd with hv | hv
    · cases hv
    · exact hv
  · have hwalk : (dateList s e).Pairwise
        (fun a b => isoLT (isocalendarYW a) (isocalendarYW b)
          ∨ isocalendarYW a = isocalendarYW b) := by
      refine (dateList_pairwise hs he).imp_of_mem ?_
      intro a b hma hmb hab
      exact isocalendarYW_mono (dateList_valid hs he a hma) (dateList_valid hs he b hmb)
        (le_of_lt (toOrdinal_lt_of_dateLT (dateList_valid hs he a hma)
          (dateList_valid hs he b hmb) hab))
    have hdsw : ds.Pairwise
        (fun a b => isoLT (isocalendarYW a) (isocalendarYW b)
          ∨ isocalendarYW a = isocalendarYW b) := hwalk.sublist hds
    have hlbl : ds.Pairwise (fun a b => weekLabel a ≠ weekLabel b) := by
      have hn : (ds.map weekLabel).Nodup := h2 ▸ h4
      exact List.pairwise_map.mp hn
    have hstrict : ds.Pairwise
        (fun a b => isoLT (isocalendarYW a) (isocalendarYW b)) := by
      refine hdsw.imp₂ (fun a b hab hne => ?_) hlbl
      rcases hab with hlt | heq
      · exact hlt
      · exfalso
        apply hne
        unfold weekLabel
        rw [heq]
    exact List.pairwise_map.mpr hstrict

theorem monthlyLoop_eq (raw : List DayRow) :
    ∀ (fuel : Nat) (cy cm : Nat),
      monthlyLoop raw fuel cy cm = (monthWalk fuel cy cm).map (fun ym =>
        { label := monthLabel ym.1 ym.2
          income := monthIncome raw (monthLabel ym.1 ym.2)
          expense := monthExpense raw (monthLabel ym.1 ym.2) }) := by
  intro fuel
  induction fuel with
  | zero => intro cy cm; rfl
  | succ k ih =>
    intro cy cm
    by_cases h12 : cm = 12
    · simp only [monthlyLoop, monthWalk, if_pos h12, List.map_cons, ih]
    · simp only [monthlyLoop, monthWalk, if_neg h12, List.map_cons, ih]

theorem monthWalk_spec :
    ∀ (fuel : Nat) (cy cm : Nat), 1 ≤ cm → cm ≤ 12 →
      (monthWalk fuel cy cm).map (fun ym => monthIdx ym.1 ym.2)
        = List.range' (monthIdx cy cm) fuel ∧
      (∀ ym ∈ monthWalk fuel cy cm, 1 ≤ ym.2 ∧ ym.2 ≤ 12 ∧ cy ≤ ym.1) := by
  intro fuel
  induction fuel with
  | zero =>
    intro cy cm h1 h2
    exact ⟨rfl, fun ym hym => absurd hym (List.not_mem_nil ym)⟩
  | succ k ih =>
    intro cy cm h1 h2
    by_cases h12 : cm = 12
    · obtain ⟨ha, hb⟩ := ih (cy + 1) 1 (by omega) (by omega)
      have hσ : monthIdx (cy + 1) 1 = monthIdx cy cm + 1 := by unfold monthIdx; omega
      rw [hσ] at ha
      constructor
      · simp only [monthWalk, if_pos h12, List.map_cons, ha, List.range'_succ]
      · intro ym hym
        simp only [monthWalk, if_pos h12, List.mem_cons] at hym
        rcases hym with rfl | hym
        · exact ⟨by omega, by omega, le_refl _⟩
        · have hx := hb ym hym
          exact ⟨hx.1, hx.2.1, by omega⟩
    · obtain ⟨ha, hb⟩ := ih cy (cm + 1) (by omega) (by omega)
      have hσ : monthIdx cy (cm + 1) = monthIdx cy cm + 1 := by unfold monthIdx; omega
      rw [hσ] at ha
      constructor
      · simp only [monthWalk, if_neg h12, List.map_cons, ha, List.range'_succ]
      · intro ym hym
        simp only [monthWalk, if_neg h12, List.mem_cons] at hym
        rcases hym with rfl | hym
        · exact ⟨h1, h2, le_refl _⟩
        · exact hb ym hym

theorem monthIdx_inj {y1 m1 y2 m2 : Nat} (h1 : 1 ≤ m1) (h2 : m1 ≤ 12)
    (h3 : 1 ≤ m2) (h4 : m2 ≤ 12) (h : monthIdx y1 m1 = monthIdx y2 m2) :
    y1 = y2 ∧ m1 = m2 := by
  unfold monthIdx at h
  omega

theorem mem_monthWalk {fuel cy cm : Nat} (h1 : 1 ≤ cm) (h2 : cm ≤ 12)
    {ym : Nat × Nat} :
    ym ∈ monthWalk fuel cy cm ↔
      1 ≤ ym.2 ∧ ym.2 ≤ 12 ∧ monthIdx cy cm ≤ monthIdx ym.1 ym.2 ∧
        monthIdx ym.1 ym.2 < monthIdx cy cm + fuel := by
  obtain ⟨ha, hb⟩ := monthWalk_spec fuel cy cm h1 h2
  constructor
  · intro hm
    have hidx : monthIdx ym.1 ym.2
        ∈ (monthWalk fuel cy cm).map (fun x => monthIdx x.1 x.2) :=
      List.mem_map_of_mem _ hm
    rw [ha, List.mem_range'_1] at hidx
    exact ⟨(hb ym hm).1, (hb ym hm).2.1, hidx.1, hidx.2⟩
  · rintro ⟨hm1, hm2, hm3, hm4⟩
    have hr : monthIdx ym.1 ym.2 ∈ List.range' (monthIdx cy cm) fuel := by
      rw [List.mem_range'_1]
      omega
    rw [← ha] at hr
    obtain ⟨x, hx, hxe⟩ := List.mem_map.mp hr
    have hxb := hb x hx
    obtain ⟨e1, e2⟩ := monthIdx_inj hxb.1 hxb.2.1 hm1 hm2 hxe
    have hxy : x = ym := Prod.ext e1 e2
    rwa [← hxy]

theorem dateLE_monthIdx {a b : Date} (ha : 1 ≤ a.month) (ha2 : a.month ≤ 12)
    (hb : 1 ≤ b.month) (hb2 : b.month ≤ 12) (h : dateLE a b) :
    monthIdx a.year a.month ≤ monthIdx b.year b.month := by
  unfold monthIdx
  unfold dateLE at h
  omega

theorem monthWalk_dateList {s e : Date} (hs : s.Valid) (he : e.Valid)
    (hse : dateLE s e) {ym : Nat × Nat} :
    ym ∈ monthWalk (monthIdx e.year e.month + 1 - monthIdx s.year s.month)
        s.year s.month ↔
      ∃ d ∈ dateList s e, d.year = ym.1 ∧ d.month = ym.2 := by
  obtain ⟨hs1, hs2, hs3, hs4, hs5, hs6⟩ := hs
  obtain ⟨he1, he2, he3, he4, he5, he6⟩ := he
  rw [mem_monthWalk hs3 hs4]
  constructor
  · rintro ⟨h1, h2, h3, h4⟩
    have hidx_se : monthIdx s.year s.month ≤ monthIdx e.year e.month :=
      dateLE_monthIdx hs3 hs4 he3 he4 hse
    by_cases heq : monthIdx ym.1 ym.2 = monthIdx s.year s.month
    · obtain ⟨e1, e2⟩ := monthIdx_inj h1 h2 hs3 hs4 heq
      refine ⟨s, (mem_dateList ⟨hs1, hs2, hs3, hs4, hs5, hs6⟩
        ⟨he1, he2, he3, he4, he5, he6⟩).mpr
        ⟨⟨hs1, hs2, hs3, hs4, hs5, hs6⟩, ?_, hse⟩, e1.symm, e2.symm⟩
      show s.year < s.year ∨ _
      right
      exact ⟨rfl, Or.inr ⟨rfl, le_refl _⟩⟩
    · have hlt : monthIdx s.year s.month < monthIdx ym.1 ym.2 := by omega
      have hy1 : 1 ≤ ym.1 := by
        unfold monthIdx at hlt
        omega
      have hy2 : ym.1 ≤ 9999 := by
        unfold monthIdx at h4
        omega
      refine ⟨⟨ym.1, ym.2, 1⟩, (mem_dateList ⟨hs1, hs2, hs3, hs4, hs5, hs6⟩
        ⟨he1, he2, he3, he4, he5, he6⟩).mpr ⟨?_, ?_, ?_⟩, rfl, rfl⟩
      · exact ⟨hy1, hy2, h1, h2, le_refl 1, monthLength_pos _ _ h1 h2⟩
      · show s.year < ym.1 ∨ (s.year = ym.1 ∧
          (s.month < ym.2 ∨ (s.month = ym.2 ∧ s.day ≤ 1)))
        unfold monthIdx at hlt
        omega
      · show ym.1 < e.year ∨ (ym.1 = e.year ∧
          (ym.2 < e.month ∨ (ym.2 = e.month ∧ 1 ≤ e.day)))
        unfold monthIdx at h4 hidx_se
        omega
  · rintro ⟨d, hd, hdy, hdm⟩
    have hdv := dateList_valid ⟨hs1, hs2, hs3, hs4, hs5, hs6⟩
      ⟨he1, he2, he3, he4, he5, he6⟩ d hd
    have hrange := (mem_dateList ⟨hs1, hs2, hs3, hs4, hs5, hs6⟩
      ⟨he1, he2, he3, he4, he5, he6⟩).mp hd
    have hidx1 : monthIdx s.year s.month ≤ monthIdx d.year d.month :=
      dateLE_monthIdx hs3 hs4 hdv.2.2.1 hdv.2.2.2.1 hrange.2.1
    have hidx2 : monthIdx d.year d.month ≤ monthIdx e.year e.month :=
      dateLE_monthIdx hdv.2.2.1 hdv.2.2.2.1 he3 he4 hrange.2.2
    rw [← hdy, ← hdm]
    exact ⟨hdv.2.2.1, hdv.2.2.2.1, hidx1, by omega⟩

/-! ### Yearly trend lemmas -/

theorem year_mem_dateList {s e : Date} (hs : s.Valid) (he : e.Valid)
    (hse : dateLE s e) {y : Nat} :
    (s.year ≤ y ∧ y ≤ e.year) ↔ ∃ d ∈ dateList s e, d.year = y := by
  obtain ⟨hs1, hs2, hs3, hs4, hs5, hs6⟩ := hs
  obtain ⟨he1, he2, he3, he4, he5, he6⟩ := he
  constructor
  · rintro ⟨h1, h2⟩
    by_cases heq : y = s.year
    · refine ⟨s, (mem_dateList ⟨hs1, hs2, hs3, hs4, hs5, hs6⟩
        ⟨he1, he2, he3, he4, he5, he6⟩).mpr
        ⟨⟨hs1, hs2, hs3, hs4, hs5, hs6⟩, ?_, hse⟩, heq.symm⟩
      show s.year < s.year ∨ _
      right
      exact ⟨rfl, Or.inr ⟨rfl, le_refl _⟩⟩
    · have hlt : s.year < y := by omega
      refine ⟨⟨y, 1, 1⟩, (mem_dateList ⟨hs1, hs2, hs3, hs4, hs5, hs6⟩
        ⟨he1, he2, he3, he4, he5, he6⟩).mpr ⟨?_, ?_, ?_⟩, rfl⟩
      · have hvy1 : 1 ≤ y := by omega
        have hvy2 : y ≤ 9999 := by omega
        exact ⟨hvy1, hvy2, le_refl 1, by show (1:Nat) ≤ 12; decide, le_refl 1,
          monthLength_pos _ _ (le_refl 1) (by show (1:Nat) ≤ 12; decide)⟩
      · exact Or.inl hlt
      · show y < e.year ∨ (y = e.year ∧ (1 < e.month ∨ (1 = e.month ∧ 1 ≤ e.day)))
        omega
  · rintro ⟨d, hd, rfl⟩
    have hrange := (mem_dateList ⟨hs1, hs2, hs3, hs4, hs5, hs6⟩
      ⟨he1, he2, he3, he4, he5, he6⟩).mp hd
    obtain ⟨hdv, hr1, hr2⟩ := hrange
    unfold dateLE at hr1 hr2
    omega

/-! ### Category-filter congruence: the filter never touches incomes -/

theorem raw_income_pairs (txns : List Txn) (s e : Date) (cat : Option String) :
    (get_daily_summary_by_category txns s e cat).map (fun r => (r.date, r.income))
      = ((dateList s e).filter (dayHasTxn txns s e)).map
          (fun d => (d, dayIncome txns s e d)) := by
  rw [raw_shape, List.map_map]
  rfl

theorem fiber_sum_congr {raw1 raw2 : List DayRow}
    (h : raw1.map (fun r => (r.date, r.income))
      = raw2.map (fun r => (r.date, r.income))) (p : Date → Bool) :
    ((raw1.filter (fun r => p r.date)).map (fun r => r.income)).sum
      = ((raw2.filter (fun r => p r.date)).map (fun r => r.income)).sum := by
  induction raw1 generalizing raw2 with
  | nil =>
    cases raw2 with
    | nil => rfl
    | cons r2 rows2 => simp at h
  | cons r rows ih =>
    cases raw2 with
    | nil => simp at h
    | cons r2 rows2 =>
      simp only [List.map_cons, List.cons.injEq, Prod.mk.injEq] at h
      obtain ⟨⟨hd, hi⟩, ht⟩ := h
      rw [List.filter_cons, List.filter_cons, hd]
      by_cases hp : p r2.date = true
      · rw [if_pos hp, if_pos hp]
        simp only [List.map_cons, List.sum_cons, hi, ih ht]
      · rw [if_neg hp, if_neg hp]
        exact ih ht

theorem weekIncome_congr {raw1 raw2 : List DayRow}
    (h : raw1.map (fun r => (r.date, r.income))
      = raw2.map (fun r => (r.date, r.income))) (lbl : String) :
    weekIncome raw1 lbl = weekIncome raw2 lbl :=
  fiber_sum_congr h (fun d => weekLabel d == lbl)

theorem monthIncome_congr {raw1 raw2 : List DayRow}
    (h : raw1.map (fun r => (r.date, r.income))
      = raw2.map (fun r => (r.date, r.income))) (lbl : String) :
    monthIncome raw1 lbl = monthIncome raw2 lbl :=
  fiber_sum_congr h (fun d => monthKey d == lbl)

theorem yearIncome_congr {raw1 raw2 : List DayRow}
    (h : raw1.map (fun r => (r.date, r.income))
      = raw2.map (fun r => (r.date, r.income))) (lbl : String) :
    yearIncome raw1 lbl = yearIncome raw2 lbl :=
  fiber_sum_congr h (fun d => yearKey d == lbl)

theorem rawLookup_income_congr {raw1 raw2 : List DayRow}
    (h : raw1.map (fun r => (r.date, r.income))
      = raw2.map (fun r => (r.date, r.income))) (lbl : String) :
    Option.map (fun r => r.income) (rawLookup raw1 lbl)
      = Option.map (fun r => r.income) (rawLookup raw2 lbl) := by
  induction raw1 generalizing raw2 with
  | nil =>
    cases raw2 with
    | nil => rfl
    | cons r2 rows2 => simp at h
  | cons r rows ih =>
    cases raw2 with
    | nil => simp at h
    | cons r2 rows2 =>
      simp only [List.map_cons, List.cons.injEq, Prod.mk.injEq] at h
      obtain ⟨⟨hd, hi⟩, ht⟩ := h
      unfold rawLookup
      cases hp : (formatDate r.date == lbl) with
      | true =>
        have hp2 : (formatDate r2.date == lbl) = true := by rw [← hd]; exact hp
        simp only [List.find?_cons, hp, hp2, Option.map_some']
        rw [hi]
      | false =>
        have hp2 : (formatDate r2.date == lbl) = false := by rw [← hd]; exact hp
        simp only [List.find?_cons, hp, hp2]
        exact ih ht

theorem dailyLoop_income_congr {raw1 raw2 : List DayRow}
    (h : raw1.map (fun r => (r.date, r.income))
      = raw2.map (fun r => (r.date, r.income))) :
    ∀ (fuel : Nat) (cur : Date),
      (dailyLoop raw1 fuel cur).map (fun p => (p.label, p.income))
        = (dailyLoop raw2 fuel cur).map (fun p => (p.label, p.income)) := by
  intro fuel
  induction fuel with
  | zero => intro cur; rfl
  | succ k ih =>
    intro cur
    have hc := rawLookup_income_congr h (formatDate cur)
    simp only [dailyLoop, List.map_cons]
    rcases h1 : rawLookup raw1 (formatDate cur) with _ | r1 <;>
      rcases h2 : rawLookup raw2 (formatDate cur) with _ | r2
    · exact congrArg (List.cons _) (ih (nextDay cur))
    · rw [h1, h2] at hc
      simp at hc
    · rw [h1, h2] at hc
      simp at hc
    · rw [h1, h2] at hc
      simp only [Option.map_some', Option.some.injEq] at hc
      show ((formatDate cur, r1.income)) :: _ = ((formatDate cur, r2.income)) :: _
      rw [hc, ih (nextDay cur)]

theorem weeklyLoop_income_congr {raw1 raw2 : List DayRow}
    (hw : ∀ lbl, weekIncome raw1 lbl = weekIncome raw2 lbl) :
    ∀ (fuel : Nat) (cur : Date) (visited : List String),
      (weeklyLoop raw1 fuel cur visited).map (fun p => (p.label, p.income))
        = (weeklyLoop raw2 fuel cur visited).map (fun p => (p.label, p.income)) := by
  intro fuel
  induction fuel with
  | zero => intro cur visited; rfl
  | succ k ih =>
    intro cur visited
    by_cases hcv : weekLabel cur ∈ visited
    · simp only [weeklyLoop, if_pos hcv]
      exact ih (nextDay cur) visited
    · simp only [weeklyLoop, if_neg hcv, List.map_cons]
      rw [hw (weekLabel cur), ih (nextDay cur) (weekLabel cur :: visited)]

theorem monthlyLoop_income_congr {raw1 raw2 : List DayRow}
    (hm : ∀ lbl, monthIncome raw1 lbl = monthIncome raw2 lbl) :
    ∀ (fuel cy cm : Nat),
      (monthlyLoop raw1 fuel cy cm).map (fun p => (p.label, p.income))
        = (monthlyLoop raw2 fuel cy cm).map (fun p => (p.label, p.income)) := by
  intro fuel
  induction fuel with
  | zero => intro cy cm; rfl
  | succ k ih =>
    intro cy cm
    simp only [monthlyLoop, List.map_cons]
    rw [hm (monthLabel cy cm)]
    by_cases h12 : cm = 12
    · simp only [if_pos h12, ih (cy + 1) 1]
    · simp only [if_neg h12, ih cy (cm + 1)]

/-! ### Monthly and yearly label lists -/

theorem monthly_data_eq (txns : List Txn) (s e : Date) (cat : Option String) :
    (get_monthly_trend_advanced txns s e cat).data
      = (monthWalk (monthIdx e.year e.month + 1 - monthIdx s.year s.month)
          s.year s.month).map (fun ym =>
            { label := monthLabel ym.1 ym.2
              income := monthIncome (get_daily_summary_by_category txns s e cat)
                (monthLabel ym.1 ym.2)
              expense := monthExpense (get_daily_summary_by_category txns s e cat)
                (monthLabel ym.1 ym.2) }) :=
  monthlyLoop_eq _ _ _ _

theorem monthWalk_mem_bounds {s e : Date} (hs : s.Valid) (he : e.Valid)
    {ym : Nat × Nat}
    (hm : ym ∈ monthWalk (monthIdx e.year e.month + 1 - monthIdx s.year s.month)
      s.year s.month) : 1 ≤ ym.2 ∧ ym.2 ≤ 12 ∧ ym.1 ≤ e.year := by
  obtain ⟨h1, h2, h3, h4⟩ := (mem_monthWalk hs.2.2.1 hs.2.2.2.1).mp hm
  refine ⟨h1, h2, ?_⟩
  have he3 := he.2.2.1
  have he4 := he.2.2.2.1
  unfold monthIdx at h3 h4
  omega

theorem monthly_pairwise (s e : Date) (hs : s.Valid) :
    (monthWalk (monthIdx e.year e.month + 1 - monthIdx s.year s.month)
      s.year s.month).Pairwise (fun a b => monthIdx a.1 a.2 < monthIdx b.1 b.2) := by
  obtain ⟨ha, _⟩ := monthWalk_spec (monthIdx e.year e.month + 1
    - monthIdx s.year s.month) s.year s.month hs.2.2.1 hs.2.2.2.1
  have hp : ((monthWalk (monthIdx e.year e.month + 1 - monthIdx s.year s.month)
      s.year s.month).map (fun ym => monthIdx ym.1 ym.2)).Pairwise (· < ·) := by
    rw [ha]
    exact List.pairwise_lt_range' _ _
  exact List.pairwise_map.mp hp

theorem monthly_labels_nodup (s e : Date) (hs : s.Valid) (he : e.Valid) :
    ((monthWalk (monthIdx e.year e.month + 1 - monthIdx s.year s.month)
      s.year s.month).map (fun ym => monthLabel ym.1 ym.2)).Nodup := by
  refine List.pairwise_map.mpr ?_
  refine (monthly_pairwise s e hs).imp_of_mem ?_
  intro a b hma hmb hab heq
  have hba := monthWalk_mem_bounds hs he hma
  have hbb := monthWalk_mem_bounds hs he hmb
  have hy9 : e.year ≤ 9999 := he.2.1
  obtain ⟨ey, em⟩ := monthLabel_inj (le_trans hba.2.2 hy9) (le_trans hbb.2.2 hy9)
    (by omega) (by omega) heq
  rw [ey, em] at hab
  exact lt_irrefl _ hab

theorem monthly_covers_raw {txns : List Txn} {s e : Date} (hs : s.Valid)
    (he : e.Valid) (hse : dateLE s e) (cat : Option String) {r : DayRow}
    (hr : r ∈ get_daily_summary_by_category txns s e cat) :
    monthKey r.date ∈ (monthWalk (monthIdx e.year e.month + 1
      - monthIdx s.year s.month) s.year s.month).map
        (fun ym => monthLabel ym.1 ym.2) := by
  have hd := (raw_mem hr).1
  have hw : (r.date.year, r.date.month)
      ∈ monthWalk (monthIdx e.year e.month + 1 - monthIdx s.year s.month)
        s.year s.month :=
    (monthWalk_dateList hs he hse).mpr ⟨r.date, hd, rfl, rfl⟩
  exact List.mem_map_of_mem _ hw

theorem yearly_labels_nodup (s e : Date) (he : e.Valid) :
    ((List.range (e.year + 1 - s.year)).map
      (fun i => yearLabel (s.year + i))).Nodup := by
  refine List.pairwise_map.mpr ?_
  refine (List.pairwise_lt_range _).imp_of_mem ?_
  intro a b hma hmb hab heq
  rw [List.mem_range] at hma hmb
  have hy9 : e.year ≤ 9999 := he.2.1
  have := yearLabel_inj (by omega) (by omega) heq
  omega

theorem yearly_covers_raw {txns : List Txn} {s e : Date} (hs : s.Valid)
    (he : e.Valid) (cat : Option String) {r : DayRow}
    (hr : r ∈ get_daily_summary_by_category txns s e cat) :
    yearKey r.date ∈ (List.range (e.year + 1 - s.year)).map
      (fun i => yearLabel (s.year + i)) := by
  have hd := (raw_mem hr).1
  have hy := (mem_dateList hs he).mp hd
  have hy1 : s.year ≤ r.date.year ∧ r.date.year ≤ e.year := by
    obtain ⟨_, hr1, hr2⟩ := hy
    unfold dateLE at hr1 hr2
    omega
  have hmem : r.date.year - s.year ∈ List.range (e.year + 1 - s.year) := by
    rw [List.mem_range]
    omega
  have hlab : yearLabel (s.year + (r.date.year - s.year))
      ∈ (List.range (e.year + 1 - s.year)).map (fun i => yearLabel (s.year + i)) :=
    List.mem_map_of_mem (fun i => yearLabel (s.year + i)) hmem
  have harith : s.year + (r.date.year - s.year) = r.date.year := by omega
  rw [harith] at hlab
  exact hlab

/-! ### Zero-fill: a unit with no matching transaction sums to zero -/

theorem raw_filter_empty_of_no_txn (txns : List Txn) (s e : Date)
    (cat : Option String) (key : Date → String) (lbl : String)
    (hno : ∀ t ∈ txns, txnInRange s e t → key t.date ≠ lbl) :
    (get_daily_summary_by_category txns s e cat).filter
      (fun r => key r.date == lbl) = [] := by
  rw [List.filter_eq_nil_iff]
  intro r hr
  obtain ⟨_, hd2, _, _⟩ := raw_mem hr
  unfold dayHasTxn at hd2
  simp only [decide_eq_true_eq] at hd2
  obtain ⟨t, ht, htr, hteq⟩ := hd2
  simp only [beq_iff_eq]
  intro hpred
  exact hno t ht htr (by rw [hteq]; exact hpred)

theorem fiber_sum_zero_of_no_txn (txns : List Txn) (s e : Date)
    (cat : Option String) (key : Date → String) (lbl : String) (f : DayRow → Nat)
    (hno : ∀ t ∈ txns, txnInRange s e t → key t.date ≠ lbl) :
    (((get_daily_summary_by_category txns s e cat).filter
      (fun r => key r.date == lbl)).map f).sum = 0 := by
  rw [raw_filter_empty_of_no_txn txns s e cat key lbl hno]
  rfl

/-! ### Per-granularity conservation of totals -/

theorem daily_sums (txns : List Txn) (s e : Date) (cat : Option String)
    (hs : s.Valid) (he : e.Valid) :
    ((get_daily_trend_advanced txns s e cat).data.map (fun p => p.income)).sum
      = ((get_daily_summary_by_category txns s e cat).map (fun r => r.income)).sum
    ∧ ((get_daily_trend_advanced txns s e cat).data.map (fun p => p.expense)).sum
      = ((get_daily_summary_by_category txns s e cat).map
          (fun r => r.expense)).sum := by
  rw [dailyTrend_points hs he cat]
  constructor
  · rw [List.map_map]
    have hcongr : (dateList s e).map ((fun p => p.income) ∘ (fun d =>
        if dayHasTxn txns s e d then
          ({ label := formatDate d, income := dayIncome txns s e d,
             expense := dayExpense txns s e d cat } : TrendPoint)
        else { label := formatDate d, income := 0, expense := 0 }))
          = (dateList s e).map (fun d =>
            if dayHasTxn txns s e d then dayIncome txns s e d else 0) := by
      apply List.map_congr_left
      intro d _
      by_cases hh : dayHasTxn txns s e d = true
      · simp only [Function.comp, if_pos hh]
      · simp only [Function.comp, if_neg hh]
    rw [hcongr, sum_ite_eq_sum_filter, raw_shape, List.map_map]
    rfl
  · rw [List.map_map]
    have hcongr : (dateList s e).map ((fun p => p.expense) ∘ (fun d =>
        if dayHasTxn txns s e d then
          ({ label := formatDate d, income := dayIncome txns s e d,
             expense := dayExpense txns s e d cat } : TrendPoint)
        else { label := formatDate d, income := 0, expense := 0 }))
          = (dateList s e).map (fun d =>
            if dayHasTxn txns s e d then dayExpense txns s e d cat else 0) := by
      apply List.map_congr_left
      intro d _
      by_cases hh : dayHasTxn txns s e d = true
      · simp only [Function.comp, if_pos hh]
      · simp only [Function.comp, if_neg hh]
    rw [hcongr, sum_ite_eq_sum_filter, raw_shape, List.map_map]
    rfl

set_option maxHeartbeats 1600000 in
theorem weekly_sums (txns : List Txn) (s e : Date) (cat : Option String)
    (hs : s.Valid) (he : e.Valid) :
    ((get_weekly_trend_advanced txns s e cat).data.map (fun p => p.income)).sum
      = ((get_daily_summary_by_category txns s e cat).map (fun r => r.income)).sum
    ∧ ((get_weekly_trend_advanced txns s e cat).data.map (fun p => p.expense)).sum
      = ((get_daily_summary_by_category txns s e cat).map
          (fun r => r.expense)).sum := by
  obtain ⟨ds, hsub, hlbl, hnodup, hcov, hval, hpair⟩ := weeklyTrend_spec hs he cat
  rw [hlbl] at hnodup
  have hcover : ∀ r ∈ get_daily_summary_by_category txns s e cat,
      weekLabel r.date ∈ ds.map weekLabel := by
    intro r hr
    have := hcov r.date (raw_mem hr).1
    rw [hlbl] at this
    exact this
  constructor
  · have hinc : (get_weekly_trend_advanced txns s e cat).data.map (fun p => p.income)
        = ((get_weekly_trend_advanced txns s e cat).data.map
            (fun p => p.label)).map (fun k =>
              (((get_daily_summary_by_category txns s e cat).filter
                (fun r => weekLabel r.date == k)).map (fun r => r.income)).sum) := by
      rw [List.map_map]
      apply List.map_congr_left
      intro p hp
      exact (hval p hp).1
    have hpart : ((ds.map weekLabel).map (fun k =>
        (((get_daily_summary_by_category txns s e cat).filter
          (fun r => weekLabel r.date == k)).map (fun r => r.income)).sum)).sum
        = ((get_daily_summary_by_category txns s e cat).map
            (fun r => r.income)).sum := by
      refine sum_fiber_partition (fun r => weekLabel r.date) (fun r => r.income)
        (get_daily_summary_by_category txns s e cat) (ds.map weekLabel) ?_ ?_
      · exact hnodup
      · exact hcover
    rw [hinc, hlbl]
    exact hpart
  · have hexp : (get_weekly_trend_advanced txns s e cat).data.map (fun p => p.expense)
        = ((get_weekly_trend_advanced txns s e cat).data.map
            (fun p => p.label)).map (fun k =>
              (((get_daily_summary_by_category txns s e cat).filter
                (fun r => weekLabel r.date == k)).map (fun r => r.expense)).sum) := by
      rw [List.map_map]
      apply List.map_congr_left
      intro p hp
      exact (hval p hp).2
    have hpart : ((ds.map weekLabel).map (fun k =>
        (((get_daily_summary_by_category txns s e cat).filter
          (fun r => weekLabel r.date == k)).map (fun r => r.expense)).sum)).sum
        = ((get_daily_summary_by_category txns s e cat).map
            (fun r => r.expense)).sum := by
      refine sum_fiber_partition (fun r => weekLabel r.date) (fun r => r.expense)
        (get_daily_summary_by_category txns s e cat) (ds.map weekLabel) ?_ ?_
      · exact hnodup
      · exact hcover
    rw [hexp, hlbl]
    exact hpart

theorem monthly_sums (txns : List Txn) (s e : Date) (cat : Option String)
    (hs : s.Valid) (he : e.Valid) (hse : dateLE s e) :
    ((get_monthly_trend_advanced txns s e cat).data.map (fun p => p.income)).sum
      = ((get_daily_summary_by_category txns s e cat).map (fun r => r.income)).sum
    ∧ ((get_monthly_trend_advanced txns s e cat).data.map (fun p => p.expense)).sum
      = ((get_daily_summary_by_category txns s e cat).map
          (fun r => r.expense)).sum := by
  constructor
  · have hmm : (get_monthly_trend_advanced txns s e cat).data.map
        (fun p => p.income)
          = ((monthWalk (monthIdx e.year e.month + 1 - monthIdx s.year s.month)
              s.year s.month).map (fun ym => monthLabel ym.1 ym.2)).map (fun k =>
                (((get_daily_summary_by_category txns s e cat).filter
                  (fun r => monthKey r.date == k)).map (fun r => r.income)).sum) := by
      rw [monthly_data_eq, List.map_map, List.map_map]
      apply List.map_congr_left
      intro ym _
      rfl
    rw [hmm]
    exact sum_fiber_partition (fun r => monthKey r.date) (fun r => r.income)
      (get_daily_summary_by_category txns s e cat)
      ((monthWalk (monthIdx e.year e.month + 1 - monthIdx s.year s.month)
        s.year s.month).map (fun ym => monthLabel ym.1 ym.2))
      (monthly_labels_nodup s e hs he)
      (fun r hr => monthly_covers_raw hs he hse cat hr)
  · have hmm : (get_monthly_trend_advanced txns s e cat).data.map
        (fun p => p.expense)
          = ((monthWalk (monthIdx e.year e.month + 1 - monthIdx s.year s.month)
              s.year s.month).map (fun ym => monthLabel ym.1 ym.2)).map (fun k =>
                (((get_daily_summary_by_category txns s e cat).filter
                  (fun r => monthKey r.date == k)).map (fun r => r.expense)).sum) := by
      rw [monthly_data_eq, List.map_map, List.map_map]
      apply List.map_congr_left
      intro ym _
      rfl
    rw [hmm]
    exact sum_fiber_partition (fun r => monthKey r.date) (fun r => r.expense)
      (get_daily_summary_by_category txns s e cat)
      ((monthWalk (monthIdx e.year e.month + 1 - monthIdx s.year s.month)
        s.year s.month).map (fun ym => monthLabel ym.1 ym.2))
      (monthly_labels_nodup s e hs he)
      (fun r hr => monthly_covers_raw hs he hse cat hr)

theorem yearly_sums (txns : List Txn) (s e : Date) (cat : Option String)
    (hs : s.Valid) (he : e.Valid) :
    ((get_yearly_trend_advanced txns s e cat).data.map (fun p => p.income)).sum
      = ((get_daily_summary_by_category txns s e cat).map (fun r => r.income)).sum
    ∧ ((get_yearly_trend_advanced txns s e cat).data.map (fun p => p.expense)).sum
      = ((get_daily_summary_by_category txns s e cat).map
          (fun r => r.expense)).sum := by
  constructor
  · have hmm : (get_yearly_trend_advanced txns s e cat).data.map (fun p => p.income)
        = ((List.range (e.year + 1 - s.year)).map
            (fun i => yearLabel (s.year + i))).map (fun k =>
              (((get_daily_summary_by_category txns s e cat).filter
                (fun r => yearKey r.date == k)).map (fun r => r.income)).sum) := by
      show (List.map _ _).map _ = _
      rw [List.map_map, List.map_map]
      apply List.map_congr_left
      intro i _
      rfl
    rw [hmm]
    exact sum_fiber_partition (fun r => yearKey r.date) (fun r => r.income)
      (get_daily_summary_by_category txns s e cat)
      ((List.range (e.year + 1 - s.year)).map (fun i => yearLabel (s.year + i)))
      (yearly_labels_nodup s e he)
      (fun r hr => yearly_covers_raw hs he cat hr)
  · have hmm : (get_yearly_trend_advanced txns s e cat).data.map (fun p => p.expense)
        = ((List.range (e.year + 1 - s.year)).map
            (fun i => yearLabel (s.year + i))).map (fun k =>
              (((get_daily_summary_by_category txns s e cat).filter
                (fun r => yearKey r.date == k)).map (fun r => r.expense)).sum) := by
      show (List.map _ _).map _ = _
      rw [List.map_map, List.map_map]
      apply List.map_congr_left
      intro i _
      rfl
    rw [hmm]
    exact sum_fiber_partition (fun r => yearKey r.date) (fun r => r.expense)
      (get_daily_summary_by_category txns s e cat)
      ((List.range (e.year + 1 - s.year)).map (fun i => yearLabel (s.year + i)))
      (yearly_labels_nodup s e he)
      (fun r hr => yearly_covers_raw hs he cat hr)

theorem decMonths_spec :
    ∀ (k : Nat) (ym : Int × Nat), 1 ≤ ym.2 → ym.2 ≤ 12 →
      1 ≤ (decMonths k ym).2 ∧ (decMonths k ym).2 ≤ 12 ∧
        monthIdxZ (decMonths k ym).1 (decMonths k ym).2
          = monthIdxZ ym.1 ym.2 - k := by
  intro k
  induction k with
  | zero =>
    intro ym h1 h2
    refine ⟨h1, h2, ?_⟩
    show monthIdxZ ym.1 ym.2 = monthIdxZ ym.1 ym.2 - ((0 : Nat) : Int)
    omega
  | succ j ih =>
    intro ym h1 h2
    by_cases hm1 : ym.2 = 1
    · have hstep : decMonths (j + 1) ym = decMonths j (ym.1 - 1, 12) := by
        show decMonths j (if ym.2 = 1 then (ym.1 - 1, 12) else (ym.1, ym.2 - 1)) = _
        rw [if_pos hm1]
      rw [hstep]
      obtain ⟨a1, a2, a3⟩ := ih (ym.1 - 1, 12) (by omega) (le_refl 12)
      refine ⟨a1, a2, ?_⟩
      rw [a3]
      unfold monthIdxZ
      rw [hm1]
      push_cast
      ring
    · have hstep : decMonths (j + 1) ym = decMonths j (ym.1, ym.2 - 1) := by
        show decMonths j (if ym.2 = 1 then (ym.1 - 1, 12) else (ym.1, ym.2 - 1)) = _
        rw [if_neg hm1]
      rw [hstep]
      obtain ⟨a1, a2, a3⟩ := ih (ym.1, ym.2 - 1) (by omega) (by omega)
      refine ⟨a1, a2, ?_⟩
      rw [a3]
      unfold monthIdxZ
      omega

/-! ### Granularity dispatch -/

theorem dispatch_day (txns : List Txn) (s e : Date) (cat : Option String) :
    get_trend_data_advanced txns s e "day" cat
      = get_daily_trend_advanced txns s e cat := by
  unfold get_trend_data_advanced
  rw [if_pos rfl]

theorem dispatch_week (txns : List Txn) (s e : Date) (cat : Option String) :
    get_trend_data_advanced txns s e "week" cat
      = get_weekly_trend_advanced txns s e cat := by
  unfold get_trend_data_advanced
  rw [if_neg (by decide), if_pos rfl]

theorem dispatch_month (txns : List Txn) (s e : Date) (cat : Option String) :
    get_trend_data_advanced txns s e "month" cat
      = get_monthly_trend_advanced txns s e cat := by
  unfold get_trend_data_advanced
  rw [if_neg (by decide), if_neg (by decide), if_pos rfl]

theorem dispatch_year (txns : List Txn) (s e : Date) (cat : Option String) :
    get_trend_data_advanced txns s e "year" cat
      = get_yearly_trend_advanced txns s e cat := by
  unfold get_trend_data_advanced
  rw [if_neg (by decide), if_neg (by decide), if_neg (by decide), if_pos rfl]

theorem dispatch_other (txns : List Txn) (s e : Date) (g : String)
    (cat : Option String) (h1 : g ≠ "day") (h2 : g ≠ "week") (h3 : g ≠ "month")
    (h4 : g ≠ "year") :
    get_trend_data_advanced txns s e g cat
      = get_daily_trend_advanced txns s e cat := by
  unfold get_trend_data_advanced
  rw [if_neg h1, if_neg h2, if_neg h3, if_neg h4]

/-! ### Claim theorems -/

/-- **C1.** For every valid `start_date ≤ end_date` range and every category
filter, the bucket sequence of `get_trend_data_advanced` is gap-free at each
granularity: the labels enumerate exactly the calendar units spanned by the
closed range (`dateList` for days; the `(year, month)` walk for months; the
consecutive years for years; the distinct ISO weeks of the spanned days for
weeks), each label appears exactly once in ascending chronological order, and
any unit with no matching transaction carries income 0 and expense 0 (for day
granularity there are exactly `(end - start).days + 1` buckets). -/
theorem c1_trend_buckets_gap_free (txns : List Txn) (s e : Date)
    (cat : Option String) (hs : s.Valid) (he : e.Valid) (hse : dateLE s e) :
    ((get_trend_data_advanced txns s e "day" cat).data.map (fun p => p.label)
        = (dateList s e).map formatDate
      ∧ (get_trend_data_advanced txns s e "day" cat).data.length
        = toOrdinal e + 1 - toOrdinal s
      ∧ (∀ d : Date, d ∈ dateList s e ↔ d.Valid ∧ dateLE s d ∧ dateLE d e)
      ∧ (dateList s e).Pairwise dateLT
      ∧ ((dateList s e).map formatDate).Nodup
      ∧ (∀ p ∈ (get_trend_data_advanced txns s e "day" cat).data,
          (∀ t ∈ txns, txnInRange s e t → formatDate t.date ≠ p.label) →
            p.income = 0 ∧ p.expense = 0))
    ∧ (∃ ds : List Date, ds.Sublist (dateList s e)
      ∧ (get_trend_data_advanced txns s e "week" cat).data.map (fun p => p.label)
        = ds.map weekLabel
      ∧ ((get_trend_data_advanced txns s e "week" cat).data.map
          (fun p => p.label)).Nodup
      ∧ (∀ d ∈ dateList s e, weekLabel d
          ∈ (get_trend_data_advanced txns s e "week" cat).data.map
            (fun p => p.label))
      ∧ (ds.map isocalendarYW).Pairwise isoLT
      ∧ (∀ p ∈ (get_trend_data_advanced txns s e "week" cat).data,
          (∀ t ∈ txns, txnInRange s e t → weekLabel t.date ≠ p.label) →
            p.income = 0 ∧ p.expense = 0))
    ∧ ((get_trend_data_advanced txns s e "month" cat).data.map (fun p => p.label)
        = (monthWalk (monthIdx e.year e.month + 1 - monthIdx s.year s.month)
            s.year s.month).map (fun ym => monthLabel ym.1 ym.2)
      ∧ (∀ ym : Nat × Nat,
          ym ∈ monthWalk (monthIdx e.year e.month + 1 - monthIdx s.year s.month)
              s.year s.month
            ↔ ∃ d ∈ dateList s e, d.year = ym.1 ∧ d.month = ym.2)
      ∧ (monthWalk (monthIdx e.year e.month + 1 - monthIdx s.year s.month)
          s.year s.month).Pairwise (fun a b => monthIdx a.1 a.2 < monthIdx b.1 b.2)
      ∧ ((get_trend_data_advanced txns s e "month" cat).data.map
          (fun p => p.label)).Nodup
      ∧ (∀ p ∈ (get_trend_data_advanced txns s e "month" cat).data,
          (∀ t ∈ txns, txnInRange s e t → monthKey t.date ≠ p.label) →
            p.income = 0 ∧ p.expense = 0))
    ∧ ((get_trend_data_advanced txns s e "year" cat).data.map (fun p => p.label)
        = (List.range (e.year + 1 - s.year)).map (fun i => yearLabel (s.year + i))
      ∧ (∀ y : Nat, (s.year ≤ y ∧ y ≤ e.year) ↔ ∃ d ∈ dateList s e, d.year = y)
      ∧ ((get_trend_data_advanced txns s e "year" cat).data.map
          (fun p => p.label)).Nodup
      ∧ (∀ p ∈ (get_trend_data_advanced txns s e "year" cat).data,
          (∀ t ∈ txns, txnInRange s e t → yearKey t.date ≠ p.label) →
            p.income = 0 ∧ p.expense = 0)) := by
  refine ⟨⟨?_, ?_, ?_, ?_, ?_, ?_⟩, ?_, ⟨?_, ?_, ?_, ?_, ?_⟩, ⟨?_, ?_, ?_, ?_⟩⟩
  · rw [dispatch_day, dailyTrend_points hs he cat, List.map_map]
    apply List.map_congr_left
    intro d _
    by_cases hh : dayHasTxn txns s e d = true
    · simp only [Function.comp, if_pos hh]
    · simp only [Function.comp, if_neg hh]
  · rw [dispatch_day, dailyTrend_points hs he cat, List.length_map,
      dateList_length hs he]
  · exact fun d => mem_dateList hs he
  · exact dateList_pairwise hs he
  · refine List.pairwise_map.mpr ((dateList_pairwise hs he).imp_of_mem ?_)
    intro a b hma hmb hab heq
    have hva := dateList_valid hs he a hma
    have hvb := dateList_valid hs he b hmb
    have hee := formatDate_inj hva hvb heq
    rw [hee] at hab
    exact absurd (toOrdinal_lt_of_dateLT hvb hvb hab) (lt_irrefl _)
  · intro p hp hno
    rw [dispatch_day, dailyTrend_points hs he cat] at hp
    obtain ⟨d, hd, rfl⟩ := List.mem_map.mp hp
    by_cases hh : dayHasTxn txns s e d = true
    · exfalso
      have hh2 := hh
      unfold dayHasTxn at hh2
      simp only [decide_eq_true_eq] at hh2
      obtain ⟨t, ht, htr, hteq⟩ := hh2
      refine hno t ht htr ?_
      rw [hteq, if_pos hh]
    · rw [if_neg hh]
      exact ⟨rfl, rfl⟩
  · obtain ⟨ds, hsub, hlbl, hnodup, hcov, hval, hpair⟩ := weeklyTrend_spec hs he cat
    rw [dispatch_week]
    refine ⟨ds, hsub, hlbl, hnodup, ?_, hpair, ?_⟩
    · exact hcov
    · intro p hp hno
      constructor
      · rw [(hval p hp).1]
        exact fiber_sum_zero_of_no_txn txns s e cat weekLabel p.label
          (fun r => r.income) hno
      · rw [(hval p hp).2]
        exact fiber_sum_zero_of_no_txn txns s e cat weekLabel p.label
          (fun r => r.expense) hno
  · rw [dispatch_month, monthly_data_eq, List.map_map]
    rfl
  · exact fun ym => monthWalk_dateList hs he hse
  · exact monthly_pairwise s e hs
  · have hlabels : (get_trend_data_advanced txns s e "month" cat).data.map
        (fun p => p.label)
          = (monthWalk (monthIdx e.year e.month + 1 - monthIdx s.year s.month)
              s.year s.month).map (fun ym => monthLabel ym.1 ym.2) := by
      rw [dispatch_month, monthly_data_eq, List.map_map]
      rfl
    rw [hlabels]
    exact monthly_labels_nodup s e hs he
  · intro p hp hno
    rw [dispatch_month, monthly_data_eq] at hp
    obtain ⟨ym, hym, rfl⟩ := List.mem_map.mp hp
    constructor
    · exact fiber_sum_zero_of_no_txn txns s e cat monthKey (monthLabel ym.1 ym.2)
        (fun r => r.income) hno
    · exact fiber_sum_zero_of_no_txn txns s e cat monthKey (monthLabel ym.1 ym.2)
        (fun r => r.expense) hno
  · rw [dispatch_year]
    show (List.map _ (List.range (e.year + 1 - s.year))).map _ = _
    rw [List.map_map]
    rfl
  · exact fun y => year_mem_dateList hs he hse
  · have hlabels : (get_trend_data_advanced txns s e "year" cat).data.map
        (fun p => p.label)
          = (List.range (e.year + 1 - s.year)).map
              (fun i => yearLabel (s.year + i)) := by
      rw [dispatch_year]
      show (List.map _ (List.range (e.year + 1 - s.year))).map _ = _
      rw [List.map_map]
      rfl
    rw [hlabels]
    exact yearly_labels_nodup s e he
  · intro p hp hno
    rw [dispatch_year] at hp
    obtain ⟨i, hi, rfl⟩ := List.mem_map.mp hp
    constructor
    · exact fiber_sum_zero_of_no_txn txns s e cat yearKey
        (yearLabel (s.year + i)) (fun r => r.income) hno
    · exact fiber_sum_zero_of_no_txn txns s e cat yearKey
        (yearLabel (s.year + i)) (fun r => r.expense) hno

/-- Witness for C1 at a concrete range: the hypotheses hold for
2026-01-01 ≤ 2026-01-03 and the day labels are the three dates. -/
theorem c1_trend_buckets_gap_free_witness :
    Date.Valid ⟨2026, 1, 1⟩ ∧ Date.Valid ⟨2026, 1, 3⟩
      ∧ dateLE ⟨2026, 1, 1⟩ ⟨2026, 1, 3⟩
      ∧ (get_trend_data_advanced [] ⟨2026, 1, 1⟩ ⟨2026, 1, 3⟩ "day" none).data.map
          (fun p => p.label)
        = (dateList ⟨2026, 1, 1⟩ ⟨2026, 1, 3⟩).map formatDate :=
  ⟨by decide, by decide, by decide,
    (c1_trend_buckets_gap_free [] ⟨2026, 1, 1⟩ ⟨2026, 1, 3⟩ none
      (by decide) (by decide) (by decide)).1.1⟩

/-- **C2.** Conservation of totals: at every granularity, with and without a
category filter, the sum of the bucket incomes over the trend result equals
the total income over all daily totals the storage read returns for the same
range, and likewise for expenses (in minor units; each displayed value is its
minor-unit sum divided by 100.0) — aggregation never drops or double-counts a
daily total. -/
theorem c2_conservation_of_totals (txns : List Txn) (s e : Date)
    (cat : Option String) (hs : s.Valid) (he : e.Valid) (hse : dateLE s e) :
    ∀ g ∈ (["day", "week", "month", "year"] : List String),
      ((get_trend_data_advanced txns s e g cat).data.map (fun p => p.income)).sum
        = ((get_daily_summary_by_category txns s e cat).map
            (fun r => r.income)).sum
      ∧ ((get_trend_data_advanced txns s e g cat).data.map
          (fun p => p.expense)).sum
        = ((get_daily_summary_by_category txns s e cat).map
            (fun r => r.expense)).sum := by
  intro g hg
  simp only [List.mem_cons, List.not_mem_nil, or_false] at hg
  rcases hg with rfl | rfl | rfl | rfl
  · rw [dispatch_day]
    exact daily_sums txns s e cat hs he
  · rw [dispatch_week]
    exact weekly_sums txns s e cat hs he
  · rw [dispatch_month]
    exact monthly_sums txns s e cat hs he hse
  · rw [dispatch_year]
    exact yearly_sums txns s e cat hs he

/-- Witness for C2: a concrete two-month range with one income and one
categorised expense, summed at month granularity. -/
theorem c2_conservation_of_totals_witness :
    Date.Valid ⟨2026, 1, 1⟩ ∧ Date.Valid ⟨2026, 2, 28⟩
      ∧ dateLE ⟨2026, 1, 1⟩ ⟨2026, 2, 28⟩
      ∧ "month" ∈ (["day", "week", "month", "year"] : List String)
      ∧ ((get_trend_data_advanced
            [⟨"income", 500, ⟨2026, 1, 15⟩, none⟩,
             ⟨"expense", 300, ⟨2026, 2, 3⟩, some "food"⟩]
            ⟨2026, 1, 1⟩ ⟨2026, 2, 28⟩ "month" none).data.map
              (fun p => p.income)).sum
        = ((get_daily_summary_by_category
            [⟨"income", 500, ⟨2026, 1, 15⟩, none⟩,
             ⟨"expense", 300, ⟨2026, 2, 3⟩, some "food"⟩]
            ⟨2026, 1, 1⟩ ⟨2026, 2, 28⟩ none).map (fun r => r.income)).sum :=
  ⟨by decide, by decide, by decide, by decide,
    (c2_conservation_of_totals
      [⟨"income", 500, ⟨2026, 1, 15⟩, none⟩,
       ⟨"expense", 300, ⟨2026, 2, 3⟩, some "food"⟩]
      ⟨2026, 1, 1⟩ ⟨2026, 2, 28⟩ none (by decide) (by decide) (by decide)
      "month" (by decide)).1⟩

/-- **C3.** The category filter never changes a bucket's income: for every
range, granularity string and category name, the filtered and unfiltered
calls of `get_trend_data_advanced` return the same granularity tag and
bucket-for-bucket the same labels and income values (only expenses may
differ). -/
theorem c3_income_unaffected_by_category_filter (txns : List Txn) (s e : Date)
    (granularity : String) (c : String) :
    (get_trend_data_advanced txns s e granularity (some c)).granularity
      = (get_trend_data_advanced txns s e granularity none).granularity
    ∧ (get_trend_data_advanced txns s e granularity (some c)).data.map
        (fun p => (p.label, p.income))
      = (get_trend_data_advanced txns s e granularity none).data.map
          (fun p => (p.label, p.income)) := by
  have h : (get_daily_summary_by_category txns s e (some c)).map
      (fun r => (r.date, r.income))
        = (get_daily_summary_by_category txns s e none).map
            (fun r => (r.date, r.income)) := by
    rw [raw_income_pairs, raw_income_pairs]
  by_cases hg1 : granularity = "day"
  · subst hg1
    rw [dispatch_day, dispatch_day]
    exact ⟨rfl, dailyLoop_income_congr h _ _⟩
  by_cases hg2 : granularity = "week"
  · subst hg2
    rw [dispatch_week, dispatch_week]
    exact ⟨rfl, weeklyLoop_income_congr (fun lbl => weekIncome_congr h lbl) _ _ _⟩
  by_cases hg3 : granularity = "month"
  · subst hg3
    rw [dispatch_month, dispatch_month]
    exact ⟨rfl, monthlyLoop_income_congr (fun lbl => monthIncome_congr h lbl) _ _ _⟩
  by_cases hg4 : granularity = "year"
  · subst hg4
    rw [dispatch_year, dispatch_year]
    refine ⟨rfl, ?_⟩
    show (List.map _ (List.range (e.year + 1 - s.year))).map _
      = (List.map _ (List.range (e.year + 1 - s.year))).map _
    rw [List.map_map, List.map_map]
    apply List.map_congr_left
    intro i _
    show (yearLabel (s.year + i), yearIncome
        (get_daily_summary_by_category txns s e (some c)) (yearLabel (s.year + i)))
      = (yearLabel (s.year + i), yearIncome
        (get_daily_summary_by_category txns s e none) (yearLabel (s.year + i)))
    rw [yearIncome_congr h]
  · rw [dispatch_other txns s e granularity (some c) hg1 hg2 hg3 hg4,
      dispatch_other txns s e granularity none hg1 hg2 hg3 hg4]
    exact ⟨rfl, dailyLoop_income_congr h _ _⟩

/-- **C4.** For every `n ≥ 1` and every valid "today", the range of
`get_last_n_full_months_range` excludes the in-progress month: its end month
is the calendar month immediately preceding today's month (one step down the
linear month index, rolling January back to the previous December), the end
date is that month's last day, and the start date is the first day of the
month `n − 1` months before the end month (again by month index, so year
rollover is exact); in particular today = 2026-01-12, n = 3 yields
("2025-10-01", "2025-12-31"). -/
theorem c4_last_n_full_months_range (today : Date) (n : Int)
    (hn : 1 ≤ n) (hv : today.Valid) :
    ∃ (endY : Int) (endM : Nat) (sy : Int) (sm : Nat),
      endY = (if today.month = 1 then (today.year : Int) - 1
        else (today.year : Int))
      ∧ endM = (if today.month = 1 then 12 else today.month - 1)
      ∧ 1 ≤ endM ∧ endM ≤ 12
      ∧ monthIdxZ endY endM = monthIdxZ (today.year : Int) today.month - 1
      ∧ 1 ≤ sm ∧ sm ≤ 12
      ∧ monthIdxZ sy sm = monthIdxZ endY endM - (n - 1)
      ∧ get_last_n_full_months_range today n
        = (pad4Int sy ++ "-" ++ pad2 sm ++ "-01",
           pad4Int endY ++ "-" ++ pad2 endM ++ "-"
             ++ pad2 (monthLength endY.toNat endM))
      ∧ get_last_n_full_months_range ⟨2026, 1, 12⟩ 3
        = ("2025-10-01", "2025-12-31") := by
  obtain ⟨hy1, hy2, hm1, hm2, hd1, hd2⟩ := hv
  have hb1 : (1 : Nat) ≤ (if today.month = 1 then 12 else today.month - 1) := by
    by_cases h1 : today.month = 1
    · rw [if_pos h1]
      omega
    · rw [if_neg h1]
      omega
  have hb2 : (if today.month = 1 then 12 else today.month - 1) ≤ 12 := by
    by_cases h1 : today.month = 1
    · rw [if_pos h1]
    · rw [if_neg h1]
      omega
  obtain ⟨a1, a2, a3⟩ := decMonths_spec (n - 1).toNat
    (⟨if today.month = 1 then (today.year : Int) - 1 else (today.year : Int),
      if today.month = 1 then 12 else today.month - 1⟩) hb1 hb2
  refine ⟨if today.month = 1 then (today.year : Int) - 1 else (today.year : Int),
    if today.month = 1 then 12 else today.month - 1,
    (decMonths (n - 1).toNat
      (⟨if today.month = 1 then (today.year : Int) - 1 else (today.year : Int),
        if today.month = 1 then 12 else today.month - 1⟩)).1,
    (decMonths (n - 1).toNat
      (⟨if today.month = 1 then (today.year : Int) - 1 else (today.year : Int),
        if today.month = 1 then 12 else today.month - 1⟩)).2,
    rfl, rfl, hb1, hb2, ?_, a1, a2, ?_, ?_, ?_⟩
  · by_cases h1 : today.month = 1
    · rw [if_pos h1, if_pos h1]
      unfold monthIdxZ
      rw [h1]
      omega
    · rw [if_neg h1, if_neg h1]
      unfold monthIdxZ
      omega
  · rw [a3]
    have hcast : (((n - 1).toNat : Nat) : Int) = n - 1 := by omega
    rw [hcast]
  · rfl
  · decide

/-- Witness for C4: the hypotheses and the documented example at
today = 2026-01-12, n = 3. -/
theorem c4_last_n_full_months_range_witness :
    (1 : Int) ≤ 3 ∧ Date.Valid ⟨2026, 1, 12⟩
      ∧ get_last_n_full_months_range ⟨2026, 1, 12⟩ 3
        = ("2025-10-01", "2025-12-31") := by
  obtain ⟨_, _, _, _, _, _, _, _, _, _, _, _, _, h⟩ :=
    c4_last_n_full_months_range ⟨2026, 1, 12⟩ 3 (by decide) (by decide)
  exact ⟨by decide, by decide, h⟩

/-! ### Sortedness of the storage read's ordering -/

theorem mem_insertByAmountDesc {x z : CatRow} :
    ∀ {l : List CatRow}, z ∈ insertByAmountDesc x l ↔ z = x ∨ z ∈ l := by
  intro l
  induction l with
  | nil =>
    show z ∈ [x] ↔ _
    simp
  | cons y ys ih =>
    unfold insertByAmountDesc
    by_cases hc : y.amount_cents < x.amount_cents
    · rw [if_pos hc]
      simp [or_comm, or_assoc, or_left_comm]
    · rw [if_neg hc]
      simp only [List.mem_cons, ih]
      constructor
      · rintro (rfl | h2)
        · exact Or.inr (Or.inl rfl)
        · rcases h2 with h2 | h2
          · exact Or.inl h2
          · exact Or.inr (Or.inr h2)
      · rintro (h2 | rfl | h2)
        · exact Or.inr (Or.inl h2)
        · exact Or.inl rfl
        · exact Or.inr (Or.inr h2)

theorem insertByAmountDesc_pairwise (x : CatRow) (l : List CatRow)
    (h : l.Pairwise (fun a b => b.amount_cents ≤ a.amount_cents)) :
    (insertByAmountDesc x l).Pairwise
      (fun a b => b.amount_cents ≤ a.amount_cents) := by
  induction l with
  | nil =>
    show ([x] : List CatRow).Pairwise _
    simp
  | cons y ys ih =>
    rw [List.pairwise_cons] at h
    unfold insertByAmountDesc
    by_cases hc : y.amount_cents < x.amount_cents
    · rw [if_pos hc]
      refine List.pairwise_cons.mpr ⟨?_, List.pairwise_cons.mpr ⟨h.1, h.2⟩⟩
      intro z hz
      rcases List.mem_cons.mp hz with rfl | hz2
      · omega
      · have := h.1 z hz2
        omega
    · rw [if_neg hc]
      refine List.pairwise_cons.mpr ⟨?_, ih h.2⟩
      intro z hz
      rcases mem_insertByAmountDesc.mp hz with rfl | hz2
      · omega
      · exact h.1 z hz2

theorem sortByAmountDesc_pairwise (l : List CatRow) :
    (sortByAmountDesc l).Pairwise (fun a b => b.amount_cents ≤ a.amount_cents) := by
  induction l with
  | nil => exact List.Pairwise.nil
  | cons x xs ih => exact insertByAmountDesc_pairwise x (sortByAmountDesc xs) ih

/-- **C5.** Week granularity assigns every date of the range to the bucket
labelled with its ISO-8601 calendar week (`weekLabel`, the code's
`f"{iso_year}-W{iso_week:02d}"`), and each bucket aggregates exactly the raw
rows carrying its label; concretely Monday 2026-01-05 and Sunday 2026-01-11
share the label "2026-W02" while Monday 2026-01-12 gets "2026-W03", and over
the range 2026-01-05..2026-01-12 the bucket sequence is
["2026-W02", "2026-W03"] in that order. -/
theorem c5_iso_week_bucketing (txns : List Txn) (s e : Date)
    (cat : Option String) (hs : s.Valid) (he : e.Valid) :
    (∀ d ∈ dateList s e, weekLabel d
        ∈ (get_trend_data_advanced txns s e "week" cat).data.map
          (fun p => p.label))
    ∧ (∀ p ∈ (get_trend_data_advanced txns s e "week" cat).data,
        p.income = weekIncome (get_daily_summary_by_category txns s e cat) p.label
        ∧ p.expense
          = weekExpense (get_daily_summary_by_category txns s e cat) p.label)
    ∧ weekLabel ⟨2026, 1, 5⟩ = "2026-W02"
    ∧ weekLabel ⟨2026, 1, 11⟩ = "2026-W02"
    ∧ weekLabel ⟨2026, 1, 12⟩ = "2026-W03"
    ∧ (get_trend_data_advanced [] ⟨2026, 1, 5⟩ ⟨2026, 1, 12⟩ "week" none).data.map
        (fun p => p.label) = ["2026-W02", "2026-W03"] := by
  obtain ⟨ds, hsub, hlbl, hnodup, hcov, hval, hpair⟩ := weeklyTrend_spec hs he cat
  rw [dispatch_week]
  exact ⟨hcov, hval, by decide, by decide, by decide, by decide⟩

/-- Witness for C5 at the concrete range 2026-01-05..2026-01-12. -/
theorem c5_iso_week_bucketing_witness :
    Date.Valid ⟨2026, 1, 5⟩ ∧ Date.Valid ⟨2026, 1, 12⟩
      ∧ (get_trend_data_advanced [] ⟨2026, 1, 5⟩ ⟨2026, 1, 12⟩ "week"
          none).data.map (fun p => p.label) = ["2026-W02", "2026-W03"] :=
  ⟨by decide, by decide,
    (c5_iso_week_bucketing [] ⟨2026, 1, 5⟩ ⟨2026, 1, 12⟩ none
      (by decide) (by decide)).2.2.2.2.2⟩

/-- **C6.** Derived ratios never divide by a zero baseline: every breakdown
percentage is 0 when the category total is 0, and each month-over-month
percentage delta is 0 when the prior month's corresponding total is 0 — the
`if … > 0 else 0` guards replace the division, nothing raises. -/
theorem c6_zero_baseline_ratios (raw : List CatRow) (txns : List Txn)
    (today : Date) :
    ((raw.map (fun r => r.amount_cents)).sum = 0 →
        ∀ b ∈ category_breakdown_raw raw, b.percentage = 0)
    ∧ ((get_last_month_summary txns today).expense_cents = 0 →
        (get_month_over_month_change txns today).expense_change_pct = 0)
    ∧ ((get_last_month_summary txns today).income_cents = 0 →
        (get_month_over_month_change txns today).income_change_pct = 0) := by
  refine ⟨?_, ?_, ?_⟩
  · intro h0 b hb
    unfold category_breakdown_raw at hb
    obtain ⟨item, hitem, rfl⟩ := List.mem_map.mp hb
    have hneg : ¬(0 < (raw.map (fun r => r.amount_cents)).sum) := by omega
    show (if 0 < (raw.map (fun r => r.amount_cents)).sum then
        (item.amount_cents : Rat)
          / ((raw.map (fun r => r.amount_cents)).sum : Rat) * 100
      else 0) = 0
    rw [if_neg hneg]
  · intro h0
    have hneg : ¬(0 < (get_last_month_summary txns today).expense_cents) := by
      omega
    show (if 0 < (get_last_month_summary txns today).expense_cents then
        (((get_current_month_summary txns today).expense_cents : Rat)
            - ((get_last_month_summary txns today).expense_cents : Rat))
          / ((get_last_month_summary txns today).expense_cents : Rat) * 100
      else 0) = 0
    rw [if_neg hneg]
  · intro h0
    have hneg : ¬(0 < (get_last_month_summary txns today).income_cents) := by
      omega
    show (if 0 < (get_last_month_summary txns today).income_cents then
        (((get_current_month_summary txns today).income_cents : Rat)
            - ((get_last_month_summary txns today).income_cents : Rat))
          / ((get_last_month_summary txns today).income_cents : Rat) * 100
      else 0) = 0
    rw [if_neg hneg]

/-- Witness for C6: a zero-total breakdown entry and an empty prior month. -/
theorem c6_zero_baseline_ratios_witness :
    (([⟨"a", 0⟩] : List CatRow).map (fun r => r.amount_cents)).sum = 0
    ∧ (⟨"a", 0, 0⟩ : BreakdownEntry).percentage = 0
    ∧ (get_last_month_summary [] ⟨2026, 3, 10⟩).expense_cents = 0
    ∧ (get_month_over_month_change [] ⟨2026, 3, 10⟩).expense_change_pct = 0
    ∧ (get_last_month_summary [] ⟨2026, 3, 10⟩).income_cents = 0
    ∧ (get_month_over_month_change [] ⟨2026, 3, 10⟩).income_change_pct = 0 :=
  ⟨rfl,
    (c6_zero_baseline_ratios [⟨"a", 0⟩] [] ⟨2026, 3, 10⟩).1 rfl ⟨"a", 0, 0⟩
      (by decide),
    rfl, (c6_zero_baseline_ratios [⟨"a", 0⟩] [] ⟨2026, 3, 10⟩).2.1 rfl,
    rfl, (c6_zero_baseline_ratios [⟨"a", 0⟩] [] ⟨2026, 3, 10⟩).2.2 rfl⟩

/-- **C7 (amended).** The descending order of `get_category_breakdown` comes
from the storage read, not from the service: `get_category_summary` itself
returns rows sorted by descending amount (sqlite `ORDER BY total DESC`), and
`get_category_breakdown` preserves its input's order entry for entry
(`category_breakdown_raw` maps position by position), so the composed
pipeline's amounts are descending.  Contrary to the claim as frozen, the
service performs no sorting of its own. -/
theorem c7_breakdown_order_from_storage (txns : List Txn) (s e : Date)
    (tx_type : String) (raw : List CatRow) :
    ((get_category_breakdown txns s e tx_type).map
        (fun b => b.amount_cents)).Pairwise (fun a b => b ≤ a)
    ∧ (category_breakdown_raw raw).map (fun b => (b.category, b.amount_cents))
      = raw.map (fun r => (r.category, r.amount_cents)) := by
  constructor
  · have hamts : (get_category_breakdown txns s e tx_type).map
        (fun b => b.amount_cents)
          = (get_category_summary txns s e tx_type).map
              (fun r => r.amount_cents) := by
      show (category_breakdown_raw _).map _ = _
      unfold category_breakdown_raw
      rw [List.map_map]
      rfl
    rw [hamts]
    refine List.pairwise_map.mpr ?_
    exact sortByAmountDesc_pairwise _
  · unfold category_breakdown_raw
    rw [List.map_map]
    rfl

/-- **C7 (counterexample to the frozen claim).** `get_category_breakdown`'s
own body does not sort: on the ascending input [("a",100), ("b",200)] —
allowed by the claim's "unsorted or arbitrarily ordered" storage contract —
the output amounts stay [100, 200], which is not descending. -/
theorem c7_breakdown_not_sorted_by_service :
    (category_breakdown_raw [⟨"a", 100⟩, ⟨"b", 200⟩]).map
        (fun b => b.amount_cents) = [100, 200]
    ∧ ¬ ((category_breakdown_raw [⟨"a", 100⟩, ⟨"b", 200⟩]).map
        (fun b => b.amount_cents)).Pairwise (fun a b => b ≤ a) := by
  constructor
  · rfl
  · intro h
    have h2 : ∀ z ∈ [(200 : Nat)], z ≤ 100 := by
      have := List.pairwise_cons.mp h
      exact this.1
    have := h2 200 (by decide)
    omega

/-- **C8.** An unrecognized granularity string falls back to day behavior:
the call returns exactly the day-granularity result (tag "day" included)
and raises nothing. -/
theorem c8_unknown_granularity_falls_back_to_day (txns : List Txn) (s e : Date)
    (g : String) (cat : Option String) (h1 : g ≠ "day") (h2 : g ≠ "week")
    (h3 : g ≠ "month") (h4 : g ≠ "year") :
    get_trend_data_advanced txns s e g cat = get_daily_trend_advanced txns s e cat
    ∧ (get_trend_data_advanced txns s e g cat).granularity = "day" := by
  refine ⟨dispatch_other txns s e g cat h1 h2 h3 h4, ?_⟩
  rw [dispatch_other txns s e g cat h1 h2 h3 h4]
  rfl

/-- Witness for C8 at granularity "fortnight". -/
theorem c8_unknown_granularity_falls_back_to_day_witness :
    ("fortnight" : String) ≠ "day" ∧ ("fortnight" : String) ≠ "week"
      ∧ ("fortnight" : String) ≠ "month" ∧ ("fortnight" : String) ≠ "year"
      ∧ get_trend_data_advanced [] ⟨2026, 1, 1⟩ ⟨2026, 1, 3⟩ "fortnight" none
        = get_daily_trend_advanced [] ⟨2026, 1, 1⟩ ⟨2026, 1, 3⟩ none :=
  ⟨by decide, by decide, by decide, by decide,
    (c8_unknown_granularity_falls_back_to_day [] ⟨2026, 1, 1⟩ ⟨2026, 1, 3⟩
      "fortnight" none (by decide) (by decide) (by decide) (by decide)).1⟩

/-- **C9.** When start > end nothing raises, and the shape depends on the
granularity: day and week return no buckets; month returns exactly one
zero-filled bucket when start and end lie in the same calendar month; year
returns exactly one zero-filled bucket when they lie in the same year. -/
theorem c9_inverted_range_behavior (txns : List Txn) (s e : Date)
    (cat : Option String) (hs : s.Valid) (he : e.Valid) (hlt : dateLT e s) :
    (get_trend_data_advanced txns s e "day" cat).data = []
    ∧ (get_trend_data_advanced txns s e "week" cat).data = []
    ∧ (s.year = e.year ∧ s.month = e.month →
        (get_trend_data_advanced txns s e "month" cat).data
          = [{ label := monthLabel s.year s.month, income := 0, expense := 0 }])
    ∧ (s.year = e.year →
        (get_trend_data_advanced txns s e "year" cat).data
          = [{ label := yearLabel s.year, income := 0, expense := 0 }]) := by
  have hord : toOrdinal e < toOrdinal s := toOrdinal_lt_of_dateLT he hs hlt
  have hfuel : toOrdinal e + 1 - toOrdinal s = 0 := by omega
  have hraw : get_daily_summary_by_category txns s e cat = [] := by
    rw [raw_shape, dateList_empty hord]
    rfl
  refine ⟨?_, ?_, ?_, ?_⟩
  · rw [dispatch_day]
    show dailyLoop _ (toOrdinal e + 1 - toOrdinal s) s = []
    rw [hfuel]
    rfl
  · rw [dispatch_week]
    show weeklyLoop _ (toOrdinal e + 1 - toOrdinal s) s [] = []
    rw [hfuel]
    rfl
  · rintro ⟨hy, hm⟩
    rw [dispatch_month]
    have hfm : monthIdx e.year e.month + 1 - monthIdx s.year s.month = 1 := by
      rw [← hy, ← hm]
      omega
    show monthlyLoop _ (monthIdx e.year e.month + 1 - monthIdx s.year s.month)
      s.year s.month = _
    rw [hfm, hraw]
    have hstep : monthlyLoop ([] : List DayRow) 1 s.year s.month
        = { label := monthLabel s.year s.month,
            income := monthIncome [] (monthLabel s.year s.month),
            expense := monthExpense [] (monthLabel s.year s.month) }
          :: (if s.month = 12 then monthlyLoop [] 0 (s.year + 1) 1
              else monthlyLoop [] 0 s.year (s.month + 1)) := rfl
    rw [hstep]
    by_cases h12 : s.month = 12
    · rw [if_pos h12]
      rfl
    · rw [if_neg h12]
      rfl
  · intro hy
    rw [dispatch_year]
    have hr1 : e.year + 1 - s.year = 1 := by omega
    show (List.range (e.year + 1 - s.year)).map _ = _
    rw [hr1, hraw]
    rfl

/-- Witness for C9 at the inverted range 2026-01-10 .. 2026-01-05. -/
theorem c9_inverted_range_behavior_witness :
    Date.Valid ⟨2026, 1, 10⟩ ∧ Date.Valid ⟨2026, 1, 5⟩
      ∧ dateLT ⟨2026, 1, 5⟩ ⟨2026, 1, 10⟩
      ∧ (get_trend_data_advanced [] ⟨2026, 1, 10⟩ ⟨2026, 1, 5⟩ "day" none).data
        = [] :=
  ⟨by decide, by decide, by decide,
    (c9_inverted_range_behavior [] ⟨2026, 1, 10⟩ ⟨2026, 1, 5⟩ none
      (by decide) (by decide) (by decide)).1⟩

/-- **C10.** For n ≤ 0, `get_last_n_full_months_range` neither raises nor
clamps specially: `range(n - 1)` is empty exactly as for n = 1, so the
result is the same single most recently completed month. -/
theorem c10_nonpositive_n_behaves_as_one (today : Date) (n : Int)
    (hn : n ≤ 0) :
    get_last_n_full_months_range today n
      = get_last_n_full_months_range today 1 := by
  unfold get_last_n_full_months_range
  have h0 : (n - 1).toNat = 0 := by omega
  rw [h0]
  rfl

/-- Witness for C10 at n = -5 and today = 2026-01-12. -/
theorem c10_nonpositive_n_behaves_as_one_witness :
    (-5 : Int) ≤ 0
      ∧ get_last_n_full_months_range ⟨2026, 1, 12⟩ (-5)
        = get_last_n_full_months_range ⟨2026, 1, 12⟩ 1 :=
  ⟨by decide, c10_nonpositive_n_behaves_as_one ⟨2026, 1, 12⟩ (-5) (by decide)⟩

end LedgerSpec
